import Mathlib

/-!
# Verification of the `nsfp` NSFN container codec and extraction state machine

A shallow embedding, in Lean 4, of the parts of the `nsfp` repository that the
frozen claims are about:

* `src/nsfp/notation.py` — the NSFN binary container: struct packing and
  unpacking of raw APU frames, the JSON schema for notation data, the binary
  layout computation, and the `write`/`read` pair with its framing checks and
  error taxonomy.  Bytes are modelled as `List Nat` (each value `< 256` by
  construction on the write side).  Python's `json.dumps(separators=(",",":"))`
  /`json.loads` pair from the standard library is modelled by an executable
  encoder (`jsonEncode`, byte-for-byte the `ensure_ascii` canonical form) and
  an executable parser (`jsonDecode`, the restriction of `json.loads` to such
  canonical whitespace-free documents — every document this development feeds
  it), with the round-trip `jsonDecode (jsonEncode j) = some j` proved, not
  assumed.

* `src/nsfp/extract.py` — the per-channel event-extraction state machine
  (`update_generic`, `update_noise`, `update_dpcm`, `update_fm`,
  `update_channel`) and the nearest-note search `get_best_matching_note`.
  The NSF emulator is an external collaborator; the state machine is verified
  over arbitrary register-snapshot streams, which subsumes every trace the
  emulator can produce.

Python `int` is modelled as `Int`; `str` as `String` (Lean `String` carries
exactly the Unicode scalar values, matching the strings `.encode("utf-8")`
accepts on the write path); fallible operations return `Option`/`Except`.
-/

namespace Nsfp

/-! ## Little-endian 32-bit words (`struct.pack("<I", ·)` / `struct.unpack`) -/

/-- The four little-endian bytes of `n` (for `n < 2^32` this is
`struct.pack("<I", n)`). -/
def le32enc (n : Nat) : List Nat :=
  [n % 256, n / 256 % 256, n / 65536 % 256, n / 16777216 % 256]

/-- Reassemble a 32-bit little-endian word from the first four bytes
(`struct.unpack("<I", ·)[0]`). -/
def le32dec (bs : List Nat) : Nat :=
  match bs with
  | b0 :: b1 :: b2 :: b3 :: _ => b0 + 256 * b1 + 65536 * b2 + 16777216 * b3
  | _ => 0

theorem le32dec_le32enc (n : Nat) (h : n < 4294967296) : le32dec (le32enc n) = n := by
  simp only [le32enc, le32dec]
  omega

theorem le32enc_length (n : Nat) : (le32enc n).length = 4 := rfl

/-! ## Python list/bytes slicing `b[start:stop]` -/

/-- Normalize a Python slice index against a sequence length: negative indices
count from the end, and the result is clamped into `[0, len]`. -/
def pyIdx (len : Nat) (i : Int) : Nat :=
  if i < 0 then (max 0 ((len : Int) + i)).toNat else min len i.toNat

/-- Python's `l[start:stop]` slice semantics: clamped, never raising. -/
def pySlice (l : List Nat) (start stop : Int) : List Nat :=
  (l.take (pyIdx l.length stop)).drop (pyIdx l.length start)

theorem pySlice_exact (l : List Nat) (off len : Nat)
    (h : off + len ≤ l.length) :
    pySlice l (off : Int) ((off : Int) + (len : Int)) = (l.drop off).take len := by
  have hoff : pyIdx l.length (off : Int) = off := by
    simp only [pyIdx]
    rw [if_neg (by omega)]
    omega
  have hstop : pyIdx l.length ((off : Int) + (len : Int)) = off + len := by
    simp only [pyIdx]
    rw [if_neg (by omega)]
    omega
  rw [pySlice, hoff, hstop, List.drop_take, Nat.add_sub_cancel_left]

/-! ## JSON documents

The value space of Python's `json` module as used by `notation.py`:
`to_json_dict` emits only `None`, `int`, `str`, `list` and `dict` values
(no floats, no booleans), so those are the constructors.  Object members
keep their insertion order, as Python dicts do. -/

mutual

inductive Json where
  | null : Json
  | jint (n : Int) : Json
  | jstr (s : String) : Json
  | jarr (elems : JList) : Json
  | jobj (mems : JMems) : Json

inductive JList where
  | nil : JList
  | cons (hd : Json) (tl : JList) : JList

inductive JMems where
  | nil : JMems
  | cons (key : String) (val : Json) (tl : JMems) : JMems

end

/-- Build a `JList` from a Lean list. -/
def JList.ofList : List Json → JList
  | [] => .nil
  | j :: js => .cons j (JList.ofList js)

/-- The Lean list of a `JList`. -/
def JList.toList : JList → List Json
  | .nil => []
  | .cons j js => j :: js.toList

theorem JList.toList_ofList (l : List Json) : (JList.ofList l).toList = l := by
  induction l with
  | nil => rfl
  | cons j js ih => simp [JList.ofList, JList.toList, ih]

/-- First-occurrence lookup in a JSON object (Python dict access for the
documents built here, whose keys are distinct). -/
def JMems.find : JMems → String → Option Json
  | .nil, _ => none
  | .cons k v tl, key => if key = k then some v else tl.find key

/-! ### Decimal integer printing (the integer part of `json.dumps`) -/

/-- ASCII decimal digits, most significant first (fuel-indexed worker; the
fuel only needs to dominate the digit count). -/
def natToDigitsAux : Nat → Nat → List Nat
  | 0, n => [48 + n % 10]
  | fuel + 1, n =>
    if n < 10 then [48 + n]
    else natToDigitsAux fuel (n / 10) ++ [48 + n % 10]

/-- ASCII decimal digits of `n`, most significant first. -/
def natToDigits (n : Nat) : List Nat := natToDigitsAux n n

theorem natToDigitsAux_irrel :
    ∀ (f1 f2 n : Nat), n ≤ f1 → n ≤ f2 → natToDigitsAux f1 n = natToDigitsAux f2 n := by
  intro f1
  induction f1 with
  | zero =>
    intro f2 n h1 h2
    have hn : n = 0 := by omega
    subst hn
    cases f2 <;> simp [natToDigitsAux]
  | succ g1 ih =>
    intro f2 n h1 h2
    cases f2 with
    | zero =>
      have hn : n = 0 := by omega
      subst hn
      simp [natToDigitsAux]
    | succ g2 =>
      rw [natToDigitsAux, natToDigitsAux]
      by_cases h : n < 10
      · rw [if_pos h, if_pos h]
      · rw [if_neg h, if_neg h]
        have hdiv : n / 10 < n := Nat.div_lt_self (by omega) (by omega)
        rw [ih g2 (n / 10) (by omega) (by omega)]

/-- The defining recurrence of `natToDigits`. -/
theorem natToDigits_eq (n : Nat) :
    natToDigits n = if _h : n < 10 then [48 + n]
      else natToDigits (n / 10) ++ [48 + n % 10] := by
  by_cases h : n < 10
  · rw [dif_pos h, natToDigits]
    cases n with
    | zero => simp [natToDigitsAux]
    | succ m => rw [natToDigitsAux, if_pos h]
  · rw [dif_neg h, natToDigits, natToDigits]
    cases n with
    | zero => omega
    | succ m =>
      rw [natToDigitsAux, if_neg h]
      have hdiv : (m + 1) / 10 < m + 1 := Nat.div_lt_self (by omega) (by omega)
      rw [natToDigitsAux_irrel m ((m + 1) / 10) ((m + 1) / 10) (by omega) le_rfl]

/-- `json.dumps` of a Python `int`: optional `-` sign then decimal digits. -/
def intToBytes (i : Int) : List Nat :=
  if i < 0 then 45 :: natToDigits (-i).toNat else natToDigits i.toNat

/-! ### String escaping (`json.dumps` with its default `ensure_ascii=True`) -/

/-- Lowercase hex digit. -/
def hexDigit (n : Nat) : Nat := if n < 10 then 48 + n else 87 + n

/-- Four lowercase hex digits of `n < 0x10000`. -/
def hex4 (n : Nat) : List Nat :=
  [hexDigit (n / 4096 % 16), hexDigit (n / 256 % 16),
   hexDigit (n / 16 % 16), hexDigit (n % 16)]

/-- The `ensure_ascii` escape of one character: `\"` and `\\`, the short
control escapes `\b\t\n\f\r`, `\u00XX` for the other control characters,
the character itself in the printable ASCII range `0x20..0x7E`, `\uXXXX`
for other BMP characters, and a `\uXXXX\uXXXX` surrogate pair beyond the
BMP — exactly Python's `ESCAPE_ASCII` substitution. -/
def escapeChar (c : Char) : List Nat :=
  let n := c.toNat
  if n = 34 then [92, 34]
  else if n = 92 then [92, 92]
  else if n = 8 then [92, 98]
  else if n = 9 then [92, 116]
  else if n = 10 then [92, 110]
  else if n = 12 then [92, 102]
  else if n = 13 then [92, 114]
  else if n < 32 then 92 :: 117 :: hex4 n
  else if n < 127 then [n]
  else if n < 65536 then 92 :: 117 :: hex4 n
  else
    (92 :: 117 :: hex4 (55296 + (n - 65536) / 1024)) ++
      (92 :: 117 :: hex4 (56320 + (n - 65536) % 1024))

/-- Escape a character sequence. -/
def escapeList : List Char → List Nat
  | [] => []
  | c :: cs => escapeChar c ++ escapeList cs

/-- `json.dumps` of a Python `str` (quoted, `ensure_ascii` escaped). -/
def encodeString (s : String) : List Nat :=
  34 :: (escapeList s.data ++ [34])

/-! ### The document encoder, `json.dumps(·, separators=(",", ":"))`

Output bytes are pure ASCII (hence UTF-8 encoding is the identity on them,
matching `.encode("utf-8")` on the write path). -/

mutual

def jsonEncode : Json → List Nat
  | .null => [110, 117, 108, 108]
  | .jint i => intToBytes i
  | .jstr s => encodeString s
  | .jarr .nil => [91, 93]
  | .jarr (.cons j js) => 91 :: (jsonEncode j ++ encodeTail js ++ [93])
  | .jobj .nil => [123, 125]
  | .jobj (.cons k v ms) =>
      123 :: ((encodeString k ++ (58 :: jsonEncode v)) ++ encodeMemsTail ms ++ [125])
  termination_by structural j => j

/-- `,`-separated continuation of a non-empty array body. -/
def encodeTail : JList → List Nat
  | .nil => []
  | .cons j js => 44 :: (jsonEncode j ++ encodeTail js)
  termination_by structural l => l

/-- `,`-separated continuation of a non-empty object body. -/
def encodeMemsTail : JMems → List Nat
  | .nil => []
  | .cons k v ms => 44 :: ((encodeString k ++ (58 :: jsonEncode v)) ++ encodeMemsTail ms)
  termination_by structural m => m

end

/-- One `"key":value` member. -/
def encodeMember (k : String) (v : Json) : List Nat :=
  encodeString k ++ (58 :: jsonEncode v)

theorem jsonEncode_jobj_cons (k : String) (v : Json) (ms : JMems) :
    jsonEncode (.jobj (.cons k v ms)) =
      123 :: (encodeMember k v ++ encodeMemsTail ms ++ [125]) := by
  rw [jsonEncode, encodeMember]

theorem encodeMemsTail_cons (k : String) (v : Json) (ms : JMems) :
    encodeMemsTail (.cons k v ms) = 44 :: (encodeMember k v ++ encodeMemsTail ms) := by
  rw [encodeMemsTail, encodeMember]

/-! ### The document parser, modelling `json.loads`

`json.loads` is applied by `read` to the JSON chunk.  Every document this
development ever decodes is in the canonical `separators=(",", ":")`,
`ensure_ascii` form produced by `jsonEncode`, so the parser is the
restriction of `json.loads` to such whitespace-free documents; the
round-trip theorem below proves it is a left inverse of the encoder on the
whole `Json` type. -/

/-- Value of one hex digit character (both cases), as `json.loads` accepts. -/
def hexVal (c : Nat) : Option Nat :=
  if 48 ≤ c ∧ c ≤ 57 then some (c - 48)
  else if 97 ≤ c ∧ c ≤ 102 then some (c - 87)
  else if 65 ≤ c ∧ c ≤ 70 then some (c - 55)
  else none

/-- Value of a four-hex-digit group. -/
def hex4Val (a b c d : Nat) : Option Nat := do
  let va ← hexVal a
  let vb ← hexVal b
  let vc ← hexVal c
  let vd ← hexVal d
  some (4096 * va + 256 * vb + 16 * vc + vd)

/-- Scan a string body up to (and consuming) the closing quote, decoding each
escape to its code unit (a `\uXXXX` group to its 16-bit value, not yet
recombined). -/
def parseStrUnits : List Nat → Option (List Nat × List Nat)
  | [] => none
  | b :: r =>
    if b = 34 then some ([], r)
    else if b = 92 then
      match r with
      | [] => none
      | e :: r1 =>
        if e = 117 then
          match r1 with
          | a :: b' :: c :: d :: r2 =>
              (hex4Val a b' c d).bind fun n =>
                (parseStrUnits r2).map fun p => (n :: p.1, p.2)
          | _ => none
        else
          let u? : Option Nat :=
            if e = 34 then some 34 else if e = 92 then some 92
            else if e = 47 then some 47 else if e = 98 then some 8
            else if e = 102 then some 12 else if e = 110 then some 10
            else if e = 114 then some 13 else if e = 116 then some 9
            else none
          match u? with
          | some u => (parseStrUnits r1).map fun p => (u :: p.1, p.2)
          | none => none
    else (parseStrUnits r).map fun p => (b :: p.1, p.2)

/-- Recombine adjacent escaped high/low surrogate pairs into the code point
they denote, exactly as `json.loads` does while scanning. -/
def combineSurrogates : List Nat → List Nat
  | [] => []
  | [u] => [u]
  | u :: v :: rest =>
    if 55296 ≤ u ∧ u < 56320 then
      if 56320 ≤ v ∧ v < 57344 then
        (65536 + (u - 55296) * 1024 + (v - 56320)) :: combineSurrogates rest
      else u :: combineSurrogates (v :: rest)
    else u :: combineSurrogates (v :: rest)

/-- Parse a string body to characters, recombining surrogate pairs as
`json.loads` does.  A lone escaped surrogate decodes to an unpaired code
point in Python; the encoder never produces one, so that corner maps to
`Char.ofNat`'s default. -/
def parseStrBody (s : List Nat) : Option (List Char × List Nat) :=
  (parseStrUnits s).map fun p => ((combineSurrogates p.1).map Char.ofNat, p.2)

/-- Is `c` an ASCII decimal digit? -/
def isDigitB (c : Nat) : Bool := 48 ≤ c && c ≤ 57

/-- Consume a maximal run of decimal digits, accumulating their value. -/
def parseDigitsAux (acc : Nat) : List Nat → Nat × List Nat
  | [] => (acc, [])
  | c :: r => if isDigitB c then parseDigitsAux (10 * acc + (c - 48)) r else (acc, c :: r)

/-- Parse a JSON integer (optional sign, decimal digits). -/
def parseInt : List Nat → Option (Int × List Nat)
  | [] => none
  | b :: r =>
    if b = 45 then
      match r with
      | [] => none
      | c :: r' =>
        if isDigitB c then
          let p := parseDigitsAux (c - 48) r'
          some (-(p.1 : Int), p.2)
        else none
    else if isDigitB b then
      let p := parseDigitsAux (b - 48) r
      some ((p.1 : Int), p.2)
    else none

mutual

/-- Parse one JSON value (fuel-indexed; any fuel at least the document's
`jweight` suffices, and `jsonDecode` supplies more than the byte length). -/
def parseValue : Nat → List Nat → Option (Json × List Nat)
  | 0, _ => none
  | f + 1, s =>
    match s with
    | [] => none
    | b :: r =>
      if b = 34 then (parseStrBody r).map fun p => (.jstr (String.mk p.1), p.2)
      else if b = 110 then
        match r with
        | 117 :: 108 :: 108 :: r' => some (.null, r')
        | _ => none
      else if b = 91 then
        if r.head? = some 93 then some (.jarr .nil, r.tail)
        else (parseElems f r).map fun p => (.jarr p.1, p.2)
      else if b = 123 then
        if r.head? = some 125 then some (.jobj .nil, r.tail)
        else (parseMems f r).map fun p => (.jobj p.1, p.2)
      else (parseInt (b :: r)).map fun p => (.jint p.1, p.2)

/-- Parse the comma-separated elements of a non-empty array, consuming the
closing bracket. -/
def parseElems : Nat → List Nat → Option (JList × List Nat)
  | 0, _ => none
  | f + 1, s => do
      let (j, r) ← parseValue f s
      if r.head? = some 44 then do
        let (js, r3) ← parseElems f r.tail
        some (.cons j js, r3)
      else if r.head? = some 93 then some (.cons j .nil, r.tail)
      else none

/-- Parse the comma-separated members of a non-empty object, consuming the
closing brace. -/
def parseMems : Nat → List Nat → Option (JMems × List Nat)
  | 0, _ => none
  | f + 1, s =>
    match s with
    | [] => none
    | b :: r =>
      if b = 34 then do
        let (cs, r1) ← parseStrBody r
        if r1.head? = some 58 then do
          let (v, r3) ← parseValue f r1.tail
          if r3.head? = some 44 then do
            let (ms, r5) ← parseMems f r3.tail
            some (.cons (String.mk cs) v ms, r5)
          else if r3.head? = some 125 then some (.cons (String.mk cs) v .nil, r3.tail)
          else none
        else none
      else none

end

/-- `json.loads` on a canonical document: parse one value consuming the whole
input. -/
def jsonDecode (s : List Nat) : Option Json :=
  match parseValue (s.length + 1) s with
  | some (j, []) => some j
  | _ => none

/-! ### Round-trip of the string codec -/

theorem char_toNat_valid (c : Char) :
    c.toNat < 55296 ∨ (57343 < c.toNat ∧ c.toNat < 1114112) := c.valid

theorem hexVal_hexDigit (k : Nat) (h : k < 16) : hexVal (hexDigit k) = some k := by
  simp only [hexVal, hexDigit]
  split_ifs <;> simp_all <;> omega

/-- The UTF-16 code units `json.dumps` would emit for one character. -/
def charUnits (c : Char) : List Nat :=
  if c.toNat < 65536 then [c.toNat]
  else [55296 + (c.toNat - 65536) / 1024, 56320 + (c.toNat - 65536) % 1024]

/-- Code units of a character sequence. -/
def unitsOfChars : List Char → List Nat
  | [] => []
  | c :: cs => charUnits c ++ unitsOfChars cs

theorem hex4Val_hex4 (n : Nat) (h : n < 65536) :
    hex4Val (hexDigit (n / 4096 % 16)) (hexDigit (n / 256 % 16))
      (hexDigit (n / 16 % 16)) (hexDigit (n % 16)) = some n := by
  rw [hex4Val, hexVal_hexDigit _ (Nat.mod_lt _ (by norm_num)),
    hexVal_hexDigit _ (Nat.mod_lt _ (by norm_num)),
    hexVal_hexDigit _ (Nat.mod_lt _ (by norm_num)),
    hexVal_hexDigit _ (Nat.mod_lt _ (by norm_num))]
  show some (4096 * (n / 4096 % 16) + 256 * (n / 256 % 16) + 16 * (n / 16 % 16) + n % 16)
    = some n
  congr 1
  omega

theorem psu_quote (r : List Nat) : parseStrUnits (34 :: r) = some ([], r) := by
  rw [parseStrUnits.eq_def]; simp

theorem psu_plain (b : Nat) (r : List Nat) (h1 : ¬ b = 34) (h2 : ¬ b = 92) :
    parseStrUnits (b :: r) = (parseStrUnits r).map fun p => (b :: p.1, p.2) := by
  rw [parseStrUnits.eq_def]; simp [h1, h2]

theorem psu_esc_u (a b c d : Nat) (r2 : List Nat) :
    parseStrUnits (92 :: 117 :: a :: b :: c :: d :: r2) =
      (hex4Val a b c d).bind fun n =>
        (parseStrUnits r2).map fun p => (n :: p.1, p.2) := by
  rw [parseStrUnits.eq_def]; simp

theorem psu_esc_short (e u : Nat) (r1 : List Nat) (h : ¬ e = 117)
    (htab : (if e = 34 then some 34 else if e = 92 then some 92
      else if e = 47 then some 47 else if e = 98 then some 8
      else if e = 102 then some 12 else if e = 110 then some 10
      else if e = 114 then some 13 else if e = 116 then some 9
      else none) = some u) :
    parseStrUnits (92 :: e :: r1) = (parseStrUnits r1).map fun p => (u :: p.1, p.2) := by
  rw [parseStrUnits.eq_def]
  simp only [List.cons.injEq, reduceIte, h, if_false, if_neg (by omega : ¬ (92 : Nat) = 34)]
  rw [htab]

theorem psu_esc_u_some (a b c d n : Nat) (r2 : List Nat) (h : hex4Val a b c d = some n) :
    parseStrUnits (92 :: 117 :: a :: b :: c :: d :: r2) =
      (parseStrUnits r2).map fun p => (n :: p.1, p.2) := by
  rw [psu_esc_u, h, Option.some_bind]

theorem psu_e34 (r : List Nat) :
    parseStrUnits (92 :: 34 :: r) = (parseStrUnits r).map fun p => (34 :: p.1, p.2) :=
  psu_esc_short 34 34 r (by decide) (by decide)

theorem psu_e92 (r : List Nat) :
    parseStrUnits (92 :: 92 :: r) = (parseStrUnits r).map fun p => (92 :: p.1, p.2) :=
  psu_esc_short 92 92 r (by decide) (by decide)

theorem psu_e98 (r : List Nat) :
    parseStrUnits (92 :: 98 :: r) = (parseStrUnits r).map fun p => (8 :: p.1, p.2) :=
  psu_esc_short 98 8 r (by decide) (by decide)

theorem psu_e116 (r : List Nat) :
    parseStrUnits (92 :: 116 :: r) = (parseStrUnits r).map fun p => (9 :: p.1, p.2) :=
  psu_esc_short 116 9 r (by decide) (by decide)

theorem psu_e110 (r : List Nat) :
    parseStrUnits (92 :: 110 :: r) = (parseStrUnits r).map fun p => (10 :: p.1, p.2) :=
  psu_esc_short 110 10 r (by decide) (by decide)

theorem psu_e102 (r : List Nat) :
    parseStrUnits (92 :: 102 :: r) = (parseStrUnits r).map fun p => (12 :: p.1, p.2) :=
  psu_esc_short 102 12 r (by decide) (by decide)

theorem psu_e114 (r : List Nat) :
    parseStrUnits (92 :: 114 :: r) = (parseStrUnits r).map fun p => (13 :: p.1, p.2) :=
  psu_esc_short 114 13 r (by decide) (by decide)

set_option maxHeartbeats 1600000 in
theorem parseStrUnits_escape (cs : List Char) (rest : List Nat) :
    parseStrUnits (escapeList cs ++ (34 :: rest)) = some (unitsOfChars cs, rest) := by
  induction cs with
  | nil => simp [escapeList, psu_quote, unitsOfChars]
  | cons c cs ih =>
    have hv := char_toNat_valid c
    rw [escapeList, List.append_assoc]
    simp only [escapeChar]
    split_ifs with h1 h2 h3 h4 h5 h6 h7 h8 h9 h10
    · simp only [List.cons_append, List.nil_append]
      rw [psu_e34, ih]
      simp [unitsOfChars, charUnits, h1]
    · simp only [List.cons_append, List.nil_append]
      rw [psu_e92, ih]
      simp [unitsOfChars, charUnits, h2]
    · simp only [List.cons_append, List.nil_append]
      rw [psu_e98, ih]
      simp [unitsOfChars, charUnits, h3]
    · simp only [List.cons_append, List.nil_append]
      rw [psu_e116, ih]
      simp [unitsOfChars, charUnits, h4]
    · simp only [List.cons_append, List.nil_append]
      rw [psu_e110, ih]
      simp [unitsOfChars, charUnits, h5]
    · simp only [List.cons_append, List.nil_append]
      rw [psu_e102, ih]
      simp [unitsOfChars, charUnits, h6]
    · simp only [List.cons_append, List.nil_append]
      rw [psu_e114, ih]
      simp [unitsOfChars, charUnits, h7]
    · -- low control characters: \u00XX
      rw [hex4]
      simp only [List.cons_append, List.nil_append]
      rw [psu_esc_u_some _ _ _ _ _ _ (hex4Val_hex4 _ (by omega)), ih]
      simp [unitsOfChars, charUnits, (show c.toNat < 65536 by omega)]
    · -- printable ASCII
      simp only [List.cons_append, List.nil_append]
      rw [psu_plain _ _ h1 h2, ih]
      simp [unitsOfChars, charUnits, (show c.toNat < 65536 by omega)]
    · -- other BMP characters: \uXXXX
      rw [hex4]
      simp only [List.cons_append, List.nil_append]
      rw [psu_esc_u_some _ _ _ _ _ _ (hex4Val_hex4 _ h10), ih]
      simp [unitsOfChars, charUnits, h10]
    · -- astral characters: surrogate pair
      rw [hex4, hex4]
      simp only [List.cons_append, List.nil_append, List.append_assoc]
      rw [psu_esc_u_some _ _ _ _ _ _ (hex4Val_hex4 _ (by omega)),
        psu_esc_u_some _ _ _ _ _ _ (hex4Val_hex4 _ (by omega)), ih]
      simp only [unitsOfChars, charUnits, if_neg (show ¬ c.toNat < 65536 by omega)]
      simp

theorem combine_cons_not_high (u : Nat) (t : List Nat) (h : ¬ (55296 ≤ u ∧ u < 56320)) :
    combineSurrogates (u :: t) = u :: combineSurrogates t := by
  cases t with
  | nil => rfl
  | cons v t' => rw [combineSurrogates, if_neg h]

theorem combine_pair (u v : Nat) (t : List Nat) (h1 : 55296 ≤ u) (h2 : u < 56320)
    (h3 : 56320 ≤ v) (h4 : v < 57344) :
    combineSurrogates (u :: v :: t) =
      (65536 + (u - 55296) * 1024 + (v - 56320)) :: combineSurrogates t := by
  rw [combineSurrogates.eq_3, if_pos ⟨h1, h2⟩, if_pos ⟨h3, h4⟩]

theorem combine_units_astral (m : Nat) (t : List Nat) (hm : m < 1048576) :
    combineSurrogates ((55296 + m / 1024) :: (56320 + m % 1024) :: t) =
      (65536 + m) :: combineSurrogates t := by
  rw [combine_pair (55296 + m / 1024) (56320 + m % 1024) t
    (by omega) (by omega) (by omega) (by omega)]
  exact congrArg (fun x => x :: combineSurrogates t) (by omega)

theorem combine_units (cs : List Char) :
    combineSurrogates (unitsOfChars cs) = cs.map Char.toNat := by
  induction cs with
  | nil => rfl
  | cons c cs ih =>
    have hv := char_toNat_valid c
    rw [unitsOfChars, charUnits]
    by_cases hb : c.toNat < 65536
    · rw [if_pos hb]
      simp only [List.cons_append, List.nil_append]
      have key := combine_cons_not_high (c.toNat) (unitsOfChars cs) (by omega)
      rw [key, ih]
      simp
    · rw [if_neg hb]
      simp only [List.cons_append, List.nil_append]
      have key := combine_units_astral (c.toNat - 65536) (unitsOfChars cs) (by omega)
      rw [key, ih]
      exact congrArg (fun x => x :: cs.map Char.toNat) (by omega)

theorem string_mk_data (s : String) : String.mk s.data = s := rfl

theorem parseStrBody_escape (cs : List Char) (rest : List Nat) :
    parseStrBody (escapeList cs ++ (34 :: rest)) = some (cs, rest) := by
  rw [parseStrBody, parseStrUnits_escape]
  simp [combine_units, List.map_map, Function.comp_def, Char.ofNat_toNat]

/-! ### Round-trip of the integer codec -/

/-- Does the byte stream not start with a digit (so a digit run ends there)? -/
def ndhB : List Nat → Bool
  | [] => true
  | c :: _ => ! isDigitB c

theorem parseDigitsAux_cons (acc c : Nat) (r : List Nat) (hd : isDigitB c = true) :
    parseDigitsAux acc (c :: r) = parseDigitsAux (10 * acc + (c - 48)) r := by
  rw [parseDigitsAux, if_pos hd]

theorem parseDigitsAux_stop (m : Nat) (rest : List Nat) (h : ndhB rest = true) :
    parseDigitsAux m rest = (m, rest) := by
  cases rest with
  | nil => rfl
  | cons c r =>
    simp only [ndhB, Bool.not_eq_true'] at h
    rw [parseDigitsAux, if_neg (by simp [h])]

theorem parseDigitsAux_append (n : Nat) : ∀ acc rest,
    parseDigitsAux acc (natToDigits n ++ rest) =
      parseDigitsAux (acc * 10 ^ (natToDigits n).length + n) rest := by
  induction n using Nat.strong_induction_on with
  | _ n ih =>
    intro acc rest
    by_cases h : n < 10
    · rw [natToDigits_eq, dif_pos h]
      simp only [List.cons_append, List.nil_append, List.length_cons, List.length_nil]
      rw [parseDigitsAux_cons _ _ _ (by simp [isDigitB]; omega)]
      congr 1
      simp
      omega
    · rw [natToDigits_eq, dif_neg h, List.append_assoc,
        ih (n / 10) (Nat.div_lt_self (by omega) (by omega)),
        List.cons_append, List.nil_append,
        parseDigitsAux_cons _ _ _ (by simp [isDigitB]; omega)]
      simp only [List.length_append, List.length_cons, List.length_nil]
      congr 1
      rw [pow_succ, ← mul_assoc]
      omega

theorem natToDigits_cons (n : Nat) :
    ∃ c t, natToDigits n = c :: t ∧ isDigitB c = true := by
  induction n using Nat.strong_induction_on with
  | _ n ih =>
    by_cases h : n < 10
    · refine ⟨48 + n, [], ?_, by simp [isDigitB]; omega⟩
      show natToDigits n = [48 + n]
      rw [natToDigits_eq, dif_pos h]
    · obtain ⟨c, t, hct, hd⟩ := ih (n / 10) (Nat.div_lt_self (by omega) (by omega))
      exact ⟨c, t ++ [48 + n % 10], by rw [natToDigits_eq, dif_neg h, hct]; simp, hd⟩

theorem parseInt_cons_digit (b : Nat) (r : List Nat) (h45 : ¬ b = 45)
    (hd : isDigitB b = true) :
    parseInt (b :: r) =
      some (((parseDigitsAux (b - 48) r).1 : Int), (parseDigitsAux (b - 48) r).2) := by
  rw [parseInt.eq_def]
  simp [h45, hd]

theorem parseInt_neg_digit (c : Nat) (r : List Nat) (hd : isDigitB c = true) :
    parseInt (45 :: c :: r) =
      some (-((parseDigitsAux (c - 48) r).1 : Int), (parseDigitsAux (c - 48) r).2) := by
  rw [parseInt.eq_def]
  simp [hd]

theorem parseDigits_natToDigits (n : Nat) (rest : List Nat) (h : ndhB rest = true)
    (c : Nat) (t : List Nat) (hct : natToDigits n = c :: t) :
    parseDigitsAux (c - 48) (t ++ rest) = (n, rest) := by
  have key : parseDigitsAux 0 (natToDigits n ++ rest) = (n, rest) := by
    rw [parseDigitsAux_append]
    simp only [zero_mul, zero_add]
    exact parseDigitsAux_stop _ _ h
  have hd : isDigitB c = true := by
    obtain ⟨c', t', hct', hd'⟩ := natToDigits_cons n
    rw [hct'] at hct
    cases hct
    exact hd'
  rw [hct, List.cons_append, parseDigitsAux_cons _ _ _ hd] at key
  simpa using key

theorem parseInt_intToBytes (i : Int) (rest : List Nat) (h : ndhB rest = true) :
    parseInt (intToBytes i ++ rest) = some (i, rest) := by
  by_cases hneg : i < 0
  · rw [intToBytes, if_pos hneg]
    obtain ⟨c, t, hct, hd⟩ := natToDigits_cons (-i).toNat
    rw [hct]
    simp only [List.cons_append]
    rw [parseInt_neg_digit _ _ hd, parseDigits_natToDigits (-i).toNat rest h c t hct]
    simp only [Option.some.injEq, Prod.mk.injEq]
    constructor
    · omega
    · trivial
  · rw [intToBytes, if_neg hneg]
    obtain ⟨c, t, hct, hd⟩ := natToDigits_cons i.toNat
    rw [hct]
    simp only [List.cons_append]
    have h45 : ¬ c = 45 := by simp [isDigitB] at hd; omega
    rw [parseInt_cons_digit _ _ h45 hd, parseDigits_natToDigits i.toNat rest h c t hct]
    simp only [Option.some.injEq, Prod.mk.injEq]
    constructor
    · omega
    · trivial

/-! ### Round-trip of the document codec -/

mutual

/-- Structural weight of a document; any parse fuel at least this suffices. -/
def jweight : Json → Nat
  | .null => 1
  | .jint _ => 1
  | .jstr _ => 1
  | .jarr es => 1 + jweightList es
  | .jobj ms => 1 + jweightMems ms

def jweightList : JList → Nat
  | .nil => 0
  | .cons j js => 1 + jweight j + jweightList js

def jweightMems : JMems → Nat
  | .nil => 0
  | .cons _ v ms => 1 + jweight v + jweightMems ms

end

theorem jweight_pos (j : Json) : 1 ≤ jweight j := by
  cases j <;> simp [jweight]

theorem encodeHead (j : Json) : ∃ h t, jsonEncode j = h :: t ∧
    (h = 34 ∨ h = 110 ∨ h = 91 ∨ h = 123 ∨ h = 45 ∨ isDigitB h = true) := by
  cases j with
  | null => exact ⟨110, _, by rw [jsonEncode], by simp⟩
  | jint i =>
    rw [jsonEncode, intToBytes]
    by_cases hneg : i < 0
    · exact ⟨45, _, by rw [if_pos hneg], by simp⟩
    · obtain ⟨c, t, hct, hd⟩ := natToDigits_cons i.toNat
      exact ⟨c, t, by rw [if_neg hneg, hct], by simp [hd]⟩
  | jstr s => exact ⟨34, _, by rw [jsonEncode, encodeString], by simp⟩
  | jarr es => cases es with
    | nil => exact ⟨91, _, by rw [jsonEncode], by simp⟩
    | cons j js => exact ⟨91, _, by rw [jsonEncode], by simp⟩
  | jobj ms => cases ms with
    | nil => exact ⟨123, _, by rw [jsonEncode], by simp⟩
    | cons k v ms => exact ⟨123, _, by rw [jsonEncode], by simp⟩

theorem encode_append_head (j : Json) (X : List Nat) :
    (jsonEncode j ++ X).head? ≠ some 93 ∧ (jsonEncode j ++ X).head? ≠ some 125 := by
  obtain ⟨h, t, hct, hc⟩ := encodeHead j
  rw [hct]
  simp only [List.cons_append, List.head?_cons]
  constructor <;> intro hEq <;> injection hEq with hEq <;>
    (rcases hc with h | h | h | h | h | h
     all_goals first
       | omega
       | (simp [isDigitB] at h; omega))

/-! Step lemmas for the value parser (one per dispatch branch). -/

theorem pv_str (f : Nat) (r : List Nat) :
    parseValue (f + 1) (34 :: r) =
      (parseStrBody r).map fun p => (.jstr (String.mk p.1), p.2) := by
  rw [parseValue.eq_def]
  simp

theorem pv_null (f : Nat) (r : List Nat) :
    parseValue (f + 1) (110 :: 117 :: 108 :: 108 :: r) = some (.null, r) := by
  rw [parseValue.eq_def]
  simp

theorem pv_arr_empty (f : Nat) (r : List Nat) :
    parseValue (f + 1) (91 :: 93 :: r) = some (.jarr .nil, r) := by
  rw [parseValue.eq_def]
  simp

theorem pv_arr_of (f : Nat) (s rest : List Nat) (js : JList)
    (hhd : s.head? ≠ some 93) (hp : parseElems f s = some (js, rest)) :
    parseValue (f + 1) (91 :: s) = some (.jarr js, rest) := by
  rw [parseValue.eq_def]
  simp only [reduceIte, if_neg (by omega : ¬ (91 : Nat) = 34),
    if_neg (by omega : ¬ (91 : Nat) = 110)]
  rw [if_neg hhd, hp]
  rfl

theorem pv_obj_empty (f : Nat) (r : List Nat) :
    parseValue (f + 1) (123 :: 125 :: r) = some (.jobj .nil, r) := by
  rw [parseValue.eq_def]
  simp

theorem pv_obj_of (f : Nat) (s rest : List Nat) (ms : JMems)
    (hhd : s.head? ≠ some 125) (hp : parseMems f s = some (ms, rest)) :
    parseValue (f + 1) (123 :: s) = some (.jobj ms, rest) := by
  rw [parseValue.eq_def]
  simp only [reduceIte, if_neg (by omega : ¬ (123 : Nat) = 34),
    if_neg (by omega : ¬ (123 : Nat) = 110), if_neg (by omega : ¬ (123 : Nat) = 91)]
  rw [if_neg hhd, hp]
  rfl

theorem pv_int_head (f : Nat) (b : Nat) (r : List Nat)
    (hb : b = 45 ∨ isDigitB b = true) :
    parseValue (f + 1) (b :: r) = (parseInt (b :: r)).map fun p => (.jint p.1, p.2) := by
  have hb' : b = 45 ∨ (48 ≤ b ∧ b ≤ 57) := by
    rcases hb with h | h
    · exact Or.inl h
    · simp [isDigitB] at h
      exact Or.inr h
  have h34 : ¬ b = 34 := by omega
  have h110 : ¬ b = 110 := by omega
  have h91 : ¬ b = 91 := by omega
  have h123 : ¬ b = 123 := by omega
  rw [parseValue.eq_def]
  simp [h34, h110, h91, h123]

theorem pv_int (f : Nat) (i : Int) (rest : List Nat) (hnd : ndhB rest = true) :
    parseValue (f + 1) (intToBytes i ++ rest) = some (.jint i, rest) := by
  have hparse := parseInt_intToBytes i rest hnd
  by_cases hneg : i < 0
  · rw [intToBytes, if_pos hneg] at hparse ⊢
    rw [List.cons_append, pv_int_head f 45 _ (Or.inl rfl), ← List.cons_append, hparse]
    rfl
  · rw [intToBytes, if_neg hneg] at hparse ⊢
    obtain ⟨c, t, hct, hd⟩ := natToDigits_cons i.toNat
    rw [hct] at hparse ⊢
    rw [List.cons_append, pv_int_head f c _ (Or.inr hd), ← List.cons_append, hparse]
    rfl

theorem pv_jstr (f : Nat) (s : String) (rest : List Nat) :
    parseValue (f + 1) (jsonEncode (.jstr s) ++ rest) = some (.jstr s, rest) := by
  rw [jsonEncode, encodeString, List.cons_append, pv_str, List.append_assoc,
    List.cons_append, List.nil_append, parseStrBody_escape]
  simp [string_mk_data]

/-! Step lemmas for the element and member parsers. -/

theorem pe_comma (f : Nat) (s rr r' : List Nat) (j : Json) (js : JList)
    (h1 : parseValue f s = some (j, 44 :: rr)) (h2 : parseElems f rr = some (js, r')) :
    parseElems (f + 1) s = some (.cons j js, r') := by
  rw [parseElems, h1]
  simp [h2]

theorem pe_close (f : Nat) (s rr : List Nat) (j : Json)
    (h1 : parseValue f s = some (j, 93 :: rr)) :
    parseElems (f + 1) s = some (.cons j .nil, rr) := by
  rw [parseElems, h1]
  simp

theorem pm_step (f : Nat) (rbody rv : List Nat) (cs : List Char) (v : Json)
    (r3 : List Nat) (h1 : parseStrBody rbody = some (cs, 58 :: rv))
    (h2 : parseValue f rv = some (v, r3)) :
    parseMems (f + 1) (34 :: rbody) =
      (if r3.head? = some 44 then do
        let (ms, r5) ← parseMems f r3.tail
        some (.cons (String.mk cs) v ms, r5)
      else if r3.head? = some 125 then some (.cons (String.mk cs) v .nil, r3.tail)
      else none) := by
  rw [parseMems.eq_def]
  simp only [reduceIte]
  rw [h1]
  simp only [Option.pure_def, Option.bind_eq_bind, Option.some_bind,
    List.head?_cons, List.tail_cons, reduceIte]
  rw [h2]
  simp only [Option.some_bind]

theorem pm_comma (f : Nat) (rbody rv rr r' : List Nat) (cs : List Char) (v : Json)
    (ms : JMems) (h1 : parseStrBody rbody = some (cs, 58 :: rv))
    (h2 : parseValue f rv = some (v, 44 :: rr))
    (h3 : parseMems f rr = some (ms, r')) :
    parseMems (f + 1) (34 :: rbody) = some (.cons (String.mk cs) v ms, r') := by
  rw [pm_step f rbody rv cs v _ h1 h2]
  simp [h3]

theorem pm_close (f : Nat) (rbody rv rr : List Nat) (cs : List Char) (v : Json)
    (h1 : parseStrBody rbody = some (cs, 58 :: rv))
    (h2 : parseValue f rv = some (v, 125 :: rr)) :
    parseMems (f + 1) (34 :: rbody) = some (.cons (String.mk cs) v .nil, rr) := by
  rw [pm_step f rbody rv cs v _ h1 h2]
  simp

theorem ndhB_encodeTail (js : JList) (rest : List Nat) :
    ndhB (encodeTail js ++ (93 :: rest)) = true := by
  cases js with
  | nil => simp [encodeTail, ndhB, isDigitB]
  | cons j js => simp [encodeTail, ndhB, isDigitB]

theorem ndhB_encodeMemsTail (ms : JMems) (rest : List Nat) :
    ndhB (encodeMemsTail ms ++ (125 :: rest)) = true := by
  cases ms with
  | nil => simp [encodeMemsTail, ndhB, isDigitB]
  | cons k v ms => simp [encodeMemsTail, ndhB, isDigitB]

theorem encodeMember_head (k : String) (v : Json) (X : List Nat) :
    (encodeMember k v ++ X).head? = some 34 := by
  rw [encodeMember, encodeString]
  simp

/-- The parser is a left inverse of the encoder, at any sufficient fuel:
values, non-empty array bodies, and non-empty object bodies. -/
theorem parse_encode_master : ∀ fuel : Nat,
    (∀ (j : Json) (rest : List Nat), jweight j ≤ fuel → ndhB rest = true →
      parseValue fuel (jsonEncode j ++ rest) = some (j, rest)) ∧
    (∀ (j : Json) (js : JList) (rest : List Nat),
      1 + jweight j + jweightList js ≤ fuel → ndhB rest = true →
      parseElems fuel (jsonEncode j ++ (encodeTail js ++ (93 :: rest))) =
        some (.cons j js, rest)) ∧
    (∀ (k : String) (v : Json) (ms : JMems) (rest : List Nat),
      1 + jweight v + jweightMems ms ≤ fuel → ndhB rest = true →
      parseMems fuel (encodeMember k v ++ (encodeMemsTail ms ++ (125 :: rest))) =
        some (.cons k v ms, rest)) := by
  intro fuel
  induction fuel with
  | zero =>
    refine ⟨?_, ?_, ?_⟩
    · intro j rest hw _
      have := jweight_pos j
      omega
    · intro j js rest hw _
      omega
    · intro k v ms rest hw _
      omega
  | succ f ih =>
    obtain ⟨ihV, ihE, ihM⟩ := ih
    refine ⟨?_, ?_, ?_⟩
    · intro j rest hw hnd
      cases j with
      | null =>
        rw [jsonEncode]
        simp only [List.cons_append, List.nil_append]
        exact pv_null f rest
      | jint i =>
        rw [jsonEncode]
        exact pv_int f i rest hnd
      | jstr s => exact pv_jstr f s rest
      | jarr es =>
        cases es with
        | nil =>
          rw [jsonEncode]
          simp only [List.cons_append, List.nil_append]
          exact pv_arr_empty f rest
        | cons j js =>
          rw [jsonEncode]
          simp only [List.cons_append, List.append_assoc, List.singleton_append]
          refine pv_arr_of f _ rest (.cons j js) (encode_append_head j _).1 ?_
          refine ihE j js rest ?_ hnd
          simp only [jweight, jweightList] at hw
          omega
      | jobj ms =>
        cases ms with
        | nil =>
          rw [jsonEncode]
          simp only [List.cons_append, List.nil_append]
          exact pv_obj_empty f rest
        | cons k v ms =>
          rw [jsonEncode_jobj_cons]
          simp only [List.cons_append, List.append_assoc, List.singleton_append]
          refine pv_obj_of f _ rest (.cons k v ms) ?_ ?_
          · rw [encodeMember_head]
            simp
          · refine ihM k v ms rest ?_ hnd
            simp only [jweight, jweightMems] at hw
            omega
    · intro j js rest hw hnd
      have hv := ihV j (encodeTail js ++ (93 :: rest))
        (by have := jweight_pos j; omega) (ndhB_encodeTail js rest)
      cases js with
      | nil =>
        rw [encodeTail] at hv ⊢
        simp only [List.nil_append] at hv ⊢
        exact pe_close f _ rest j hv
      | cons j2 js2 =>
        rw [encodeTail] at hv ⊢
        simp only [List.cons_append, List.append_assoc, List.nil_append] at hv ⊢
        refine pe_comma f _ _ rest j (.cons j2 js2) hv ?_
        refine ihE j2 js2 rest ?_ hnd
        have h1 := jweight_pos j
        simp only [jweightList] at hw
        omega
    · intro k v ms rest hw hnd
      rw [encodeMember, encodeString]
      simp only [List.cons_append, List.append_assoc, List.singleton_append,
        List.nil_append]
      have hv := ihV v (encodeMemsTail ms ++ (125 :: rest))
        (by have := jweight_pos v; omega) (ndhB_encodeMemsTail ms rest)
      cases ms with
      | nil =>
        rw [encodeMemsTail] at hv
        simp only [List.nil_append] at hv
        have key := pm_close f (escapeList k.data ++ 34 :: 58 :: (jsonEncode v ++ (encodeMemsTail .nil ++ 125 :: rest)))
          (jsonEncode v ++ (encodeMemsTail .nil ++ 125 :: rest)) rest k.data v
          (by rw [parseStrBody_escape])
          (by rw [encodeMemsTail]; simp only [List.nil_append]; exact hv)
        rw [encodeMemsTail] at key ⊢
        simp only [List.nil_append] at key ⊢
        rw [key, string_mk_data]
      | cons k2 v2 ms2 =>
        rw [encodeMemsTail_cons] at hv
        simp only [List.cons_append, List.append_assoc] at hv
        have hm := ihM k2 v2 ms2 rest
          (by have h1 := jweight_pos v; simp only [jweightMems] at hw; omega) hnd
        have key := pm_comma f
          (escapeList k.data ++ 34 :: 58 :: (jsonEncode v ++ (encodeMemsTail (.cons k2 v2 ms2) ++ 125 :: rest)))
          (jsonEncode v ++ (encodeMemsTail (.cons k2 v2 ms2) ++ 125 :: rest))
          (encodeMember k2 v2 ++ (encodeMemsTail ms2 ++ 125 :: rest)) rest k.data v
          (.cons k2 v2 ms2)
          (by rw [parseStrBody_escape])
          (by rw [encodeMemsTail_cons]; simp only [List.cons_append, List.append_assoc]; exact hv)
          hm
        rw [encodeMemsTail_cons] at key ⊢
        simp only [List.cons_append, List.append_assoc] at key ⊢
        rw [key, string_mk_data]

mutual

theorem jweight_le_len : ∀ j : Json, jweight j ≤ (jsonEncode j).length
  | .null => by rw [jsonEncode, jweight]; simp
  | .jint i => by
      rw [jsonEncode, jweight, intToBytes]
      by_cases h : i < 0
      · rw [if_pos h]
        simp
      · rw [if_neg h]
        obtain ⟨c, t, hct, _⟩ := natToDigits_cons i.toNat
        rw [hct]
        simp
  | .jstr s => by rw [jsonEncode, encodeString, jweight]; simp
  | .jarr .nil => by rw [jsonEncode, jweight, jweightList]; simp
  | .jarr (.cons j js) => by
      rw [jsonEncode, jweight, jweightList]
      have h1 := jweight_le_len j
      have h2 := jweightList_le_len js
      simp only [List.length_cons, List.length_append, List.length_singleton]
      omega
  | .jobj .nil => by rw [jsonEncode, jweight, jweightMems]; simp
  | .jobj (.cons k v ms) => by
      rw [jsonEncode, jweight, jweightMems]
      have h1 := jweight_le_len v
      have h2 := jweightMems_le_len ms
      simp only [encodeMember, encodeString, List.length_cons, List.length_append,
        List.length_singleton]
      omega

theorem jweightList_le_len : ∀ js : JList, jweightList js ≤ (encodeTail js).length
  | .nil => by rw [jweightList, encodeTail]; simp
  | .cons j js => by
      rw [jweightList, encodeTail]
      have h1 := jweight_le_len j
      have h2 := jweightList_le_len js
      simp only [List.length_cons, List.length_append]
      omega

theorem jweightMems_le_len : ∀ ms : JMems, jweightMems ms ≤ (encodeMemsTail ms).length
  | .nil => by rw [jweightMems, encodeMemsTail]; simp
  | .cons k v ms => by
      rw [jweightMems, encodeMemsTail]
      have h1 := jweight_le_len v
      have h2 := jweightMems_le_len ms
      simp only [encodeMember, encodeString, List.length_cons, List.length_append,
        List.length_singleton]
      omega

end

theorem jweight_le_one_add (j : Json) : jweight j ≤ (jsonEncode j).length + 1 :=
  le_trans (jweight_le_len j) (by omega)

/-- `json.loads(json.dumps(d))` recovers the document: the whole-input parse
with the default fuel succeeds. -/
theorem jsonDecode_jsonEncode (j : Json) : jsonDecode (jsonEncode j) = some j := by
  rw [jsonDecode]
  have h := (parse_encode_master ((jsonEncode j).length + 1)).1 j []
    (jweight_le_one_add j) rfl
  rw [List.append_nil] at h
  rw [h]

/-! ## Packed raw-frame formats (`STRUCT_FORMATS`, `pack_frames`, `unpack_frames`)

`struct` format characters used by `notation.py`: `H` (u16), `B` (u8),
`b` (i8), `i` (i32), all little-endian (`<`, so no padding and
`calcsize` is the sum of the field sizes).  `struct.pack` range-checks
each field (no wrapping), `struct.unpack` sign-extends `b`/`i`. -/

inductive FType where
  | u8 : FType
  | u16 : FType
  | i8 : FType
  | i32 : FType
deriving DecidableEq

def ftypeSize : FType → Nat
  | .u8 => 1
  | .u16 => 2
  | .i8 => 1
  | .i32 => 4

/-- The twelve entries of the `STRUCT_FORMATS` dict of `notation.py`
(`"square": "<HBB"`, …), in declaration order. -/
def STRUCT_FORMATS_TABLE : List (String × List FType) :=
  [("square", [.u16, .u8, .u8]),
   ("triangle", [.u16, .u8]),
   ("noise", [.u8, .u8, .u8]),
   ("dpcm", [.u16, .i32, .u8, .u8, .u8, .u8]),
   ("vrc6_square", [.u16, .u8, .u8]),
   ("vrc6_saw", [.u16, .u8]),
   ("vrc7_fm", [.u16, .u8, .u8, .u8, .u8, .u8, .i8]),
   ("fds", [.u16, .u8, .u8, .u16, .u8, .u8]),
   ("mmc5_square", [.u16, .u8, .u8]),
   ("mmc5_dpcm", [.u8]),
   ("n163_wave", [.i32, .u8, .u8, .u8, .u8]),
   ("s5b_square", [.u16, .u8, .u8, .u8, .u8, .u16, .u8, .u8])]

/-- Dict lookup in `STRUCT_FORMATS`; `none` models the `KeyError` on an
unknown tag. -/
def STRUCT_FORMATS (s : String) : Option (List FType) :=
  (STRUCT_FORMATS_TABLE.find? (fun p => p.1 == s)).map (·.2)

/-- `struct.calcsize` for a `<`-prefixed format. -/
def fmtSize (fmt : List FType) : Nat := (fmt.map ftypeSize).sum

/-- One field of `struct.pack`: range check, then little-endian bytes. -/
def packField : FType → Int → Option (List Nat)
  | .u8, v => if 0 ≤ v ∧ v ≤ 255 then some [v.toNat] else none
  | .u16, v => if 0 ≤ v ∧ v ≤ 65535 then some [v.toNat % 256, v.toNat / 256] else none
  | .i8, v => if -128 ≤ v ∧ v ≤ 127 then some [(v % 256).toNat] else none
  | .i32, v =>
      if -2147483648 ≤ v ∧ v ≤ 2147483647 then some (le32enc (v % 4294967296).toNat)
      else none

/-- `struct.pack(fmt, *tuple)`: arity must match, every field in range. -/
def packFrame : List FType → List Int → Option (List Nat)
  | [], [] => some []
  | f :: fs, v :: vs => do
      let bs ← packField f v
      let rest ← packFrame fs vs
      some (bs ++ rest)
  | _, _ => none

/-- `pack_frames`: look the format up, pack each frame, concatenate. -/
def pack_frames (struct_format : String) (frames : List (List Int)) :
    Option (List Nat) := do
  let fmt ← STRUCT_FORMATS struct_format
  let parts ← frames.mapM (packFrame fmt)
  some parts.flatten

/-- `struct.unpack` on an exact-size chunk (sign-extending `b` and `i`). -/
def unpackFields : List FType → List Nat → Option (List Int)
  | [], [] => some []
  | .u8 :: fs, b :: r => (unpackFields fs r).map fun vs => (b : Int) :: vs
  | .u16 :: fs, b0 :: b1 :: r =>
      (unpackFields fs r).map fun vs => ((b0 + 256 * b1 : Nat) : Int) :: vs
  | .i8 :: fs, b :: r =>
      (unpackFields fs r).map fun vs =>
        (if b < 128 then (b : Int) else (b : Int) - 256) :: vs
  | .i32 :: fs, b0 :: b1 :: b2 :: b3 :: r =>
      (unpackFields fs r).map fun vs =>
        (if b0 + 256 * b1 + 65536 * b2 + 16777216 * b3 < 2147483648 then
          ((b0 + 256 * b1 + 65536 * b2 + 16777216 * b3 : Nat) : Int)
        else ((b0 + 256 * b1 + 65536 * b2 + 16777216 * b3 : Nat) : Int) - 4294967296) :: vs
  | _, _ => none

/-- Errors escaping `unpack_frames`: a `KeyError` on an unknown format tag,
or a bare `struct.error` on a short final chunk.  Neither is a
`NotationError`. -/
inductive UnpackErr where
  | keyError : UnpackErr
  | structError : UnpackErr
deriving DecidableEq

/-- Fuel-indexed worker for the unpack loop (the fuel only needs to
dominate the chunk count, e.g. the data length). -/
def unpackLoopAux : Nat → List FType → Nat → List Nat →
    Except UnpackErr (List (List Int))
  | _, _, _, [] => .ok []
  | 0, _, _, _ :: _ => .error .structError
  | fuel + 1, fmt, size, data =>
    if _hsz : data.length < size ∨ size = 0 then .error .structError
    else match unpackFields fmt (data.take size) with
      | some fr => (unpackLoopAux fuel fmt size (data.drop size)).map (fr :: ·)
      | none => .error .structError

/-- The `for offset in range(0, len(data), size)` loop of `unpack_frames`:
each full chunk unpacks; a short final chunk raises `struct.error`.
(`size = 0` cannot happen for the twelve formats; Python would raise there
too, on the `range` step.) -/
def unpackLoop (fmt : List FType) (size : Nat) (data : List Nat) :
    Except UnpackErr (List (List Int)) :=
  unpackLoopAux data.length fmt size data

theorem unpackLoopAux_irrel :
    ∀ (f1 f2 : Nat) (fmt : List FType) (size : Nat) (data : List Nat),
    data.length ≤ f1 → data.length ≤ f2 → 1 ≤ size →
    unpackLoopAux f1 fmt size data = unpackLoopAux f2 fmt size data := by
  intro f1
  induction f1 with
  | zero =>
    intro f2 fmt size data h1 h2 hsz
    cases data with
    | nil => cases f2 <;> rfl
    | cons b bs => simp at h1
  | succ g1 ih =>
    intro f2 fmt size data h1 h2 hsz
    cases data with
    | nil => cases f2 <;> rfl
    | cons b bs =>
      cases f2 with
      | zero => simp at h2
      | succ g2 =>
        rw [unpackLoopAux, unpackLoopAux]
        rotate_left
        · simp
        · simp
        by_cases hs : (b :: bs).length < size ∨ size = 0
        · rw [dif_pos hs, dif_pos hs]
        · rw [dif_neg hs, dif_neg hs]
          push_neg at hs
          have hrec := ih g2 fmt size ((b :: bs).drop size)
            (by simp only [List.length_drop]; simp at h1 ⊢; omega)
            (by simp only [List.length_drop]; simp at h2 ⊢; omega) hsz
          rw [hrec]

/-- The defining recurrence of `unpackLoop` (for positive chunk size). -/
theorem unpackLoop_eq (fmt : List FType) (size : Nat) (data : List Nat)
    (hsz : 1 ≤ size) :
    unpackLoop fmt size data =
      if _h : data = [] then .ok []
      else if _hsz : data.length < size ∨ size = 0 then .error .structError
      else match unpackFields fmt (data.take size) with
        | some fr => (unpackLoop fmt size (data.drop size)).map (fr :: ·)
        | none => .error .structError := by
  cases data with
  | nil => rfl
  | cons b bs =>
    rw [dif_neg (by simp : ¬(b :: bs = []))]
    rw [unpackLoop, List.length_cons, unpackLoopAux]
    rotate_left
    · simp
    by_cases hs : bs.length + 1 < size ∨ size = 0
    · rw [dif_pos (show (b :: bs).length < size ∨ size = 0 by simpa using hs),
        dif_pos hs]
    · rw [dif_neg (show ¬((b :: bs).length < size ∨ size = 0) by simpa using hs),
        dif_neg hs]
      have hrec := unpackLoopAux_irrel bs.length ((b :: bs).drop size).length fmt
        size ((b :: bs).drop size)
        (by simp only [List.length_drop]; simp; omega) le_rfl hsz
      rw [unpackLoop, hrec]

/-- `unpack_frames(struct_format, data)`. -/
def unpack_frames (struct_format : String) (data : List Nat) :
    Except UnpackErr (List (List Int)) :=
  match STRUCT_FORMATS struct_format with
  | none => .error .keyError
  | some fmt => unpackLoop fmt (fmtSize fmt) data

theorem fmtSize_pos (s : String) (fmt : List FType)
    (h : STRUCT_FORMATS s = some fmt) : 1 ≤ fmtSize fmt := by
  rw [STRUCT_FORMATS] at h
  rw [Option.map_eq_some'] at h
  obtain ⟨p, hp, hf⟩ := h
  have hmem := List.mem_of_find?_eq_some hp
  subst hf
  fin_cases hmem <;> decide

theorem packField_length (f : FType) (v : Int) (bs : List Nat)
    (h : packField f v = some bs) : bs.length = ftypeSize f := by
  cases f <;> (rw [packField] at h; split_ifs at h) <;>
    (simp only [Option.some.injEq] at h; subst h; simp [ftypeSize, le32enc])

theorem packFrame_length (fmt : List FType) (tup : List Int) (bs : List Nat)
    (h : packFrame fmt tup = some bs) : bs.length = fmtSize fmt := by
  induction fmt generalizing tup bs with
  | nil =>
    cases tup with
    | nil => simp [packFrame] at h; subst h; rfl
    | cons v vs => simp [packFrame] at h
  | cons f fs ih =>
    cases tup with
    | nil => simp [packFrame] at h
    | cons v vs =>
      simp only [packFrame, Option.bind_eq_bind, Option.bind_eq_some,
        Option.some.injEq] at h
      obtain ⟨fbs, hf, rest, hr, rfl⟩ := h
      simp only [List.length_append, fmtSize, List.map_cons, List.sum_cons]
      rw [packField_length f v fbs hf]
      have := ih vs rest hr
      rw [fmtSize] at this
      omega

theorem unpackFields_cons_pack (f : FType) (v : Int) (fbs : List Nat)
    (fs : List FType) (rest : List Nat) (h : packField f v = some fbs) :
    unpackFields (f :: fs) (fbs ++ rest) =
      (unpackFields fs rest).map fun vs => v :: vs := by
  cases f <;> rw [packField] at h <;> split_ifs at h with hr <;>
    simp only [Option.some.injEq] at h <;> subst h
  · -- u8
    rw [show ([v.toNat] ++ rest) = v.toNat :: rest from rfl, unpackFields]
    have : ((v.toNat : Nat) : Int) = v := by omega
    rw [this]
  · -- u16
    rw [show ([v.toNat % 256, v.toNat / 256] ++ rest)
      = v.toNat % 256 :: v.toNat / 256 :: rest from rfl, unpackFields]
    have : ((v.toNat % 256 + 256 * (v.toNat / 256) : Nat) : Int) = v := by omega
    rw [this]
  · -- i8
    rw [show ([(v % 256).toNat] ++ rest) = (v % 256).toNat :: rest from rfl, unpackFields]
    have h256 : (0 : Int) ≤ v % 256 ∧ v % 256 < 256 := ⟨Int.emod_nonneg v (by omega),
      Int.emod_lt_of_pos v (by omega)⟩
    have : (if (v % 256).toNat < 128 then (((v % 256).toNat : Nat) : Int)
        else (((v % 256).toNat : Nat) : Int) - 256) = v := by
      split_ifs <;> omega
    rw [this]
  · -- i32
    rw [le32enc, show (([(v % 4294967296).toNat % 256,
      (v % 4294967296).toNat / 256 % 256, (v % 4294967296).toNat / 65536 % 256,
      (v % 4294967296).toNat / 16777216 % 256] : List Nat) ++ rest)
      = (v % 4294967296).toNat % 256 :: (v % 4294967296).toNat / 256 % 256 ::
        (v % 4294967296).toNat / 65536 % 256 ::
        (v % 4294967296).toNat / 16777216 % 256 :: rest from rfl, unpackFields]
    have hm : (0 : Int) ≤ v % 4294967296 ∧ v % 4294967296 < 4294967296 :=
      ⟨Int.emod_nonneg v (by omega), Int.emod_lt_of_pos v (by omega)⟩
    have hsum : (v % 4294967296).toNat % 256 + 256 * ((v % 4294967296).toNat / 256 % 256)
        + 65536 * ((v % 4294967296).toNat / 65536 % 256)
        + 16777216 * ((v % 4294967296).toNat / 16777216 % 256)
        = (v % 4294967296).toNat := by omega
    rw [hsum]
    have : (if (v % 4294967296).toNat < 2147483648
        then (((v % 4294967296).toNat : Nat) : Int)
        else (((v % 4294967296).toNat : Nat) : Int) - 4294967296) = v := by
      split_ifs <;> omega
    rw [this]

theorem packFrame_unpack (fmt : List FType) (tup : List Int) (bs : List Nat)
    (h : packFrame fmt tup = some bs) : unpackFields fmt bs = some tup := by
  induction fmt generalizing tup bs with
  | nil =>
    cases tup with
    | nil => simp [packFrame] at h; subst h; rfl
    | cons v vs => simp [packFrame] at h
  | cons f fs ih =>
    cases tup with
    | nil => simp [packFrame] at h
    | cons v vs =>
      simp only [packFrame, Option.bind_eq_bind, Option.bind_eq_some,
        Option.some.injEq] at h
      obtain ⟨fbs, hf, rest, hr, rfl⟩ := h
      rw [unpackFields_cons_pack f v fbs fs rest hf, ih vs rest hr]
      rfl

/-- The range `struct.pack` accepts for one field (its declared width). -/
def fieldFits : FType → Int → Prop
  | .u8, v => 0 ≤ v ∧ v ≤ 255
  | .u16, v => 0 ≤ v ∧ v ≤ 65535
  | .i8, v => -128 ≤ v ∧ v ≤ 127
  | .i32, v => -2147483648 ≤ v ∧ v ≤ 2147483647

instance (f : FType) (v : Int) : Decidable (fieldFits f v) := by
  cases f <;> (rw [fieldFits]; infer_instance)

/-- A frame tuple of matching arity whose values fit the declared widths. -/
def frameFits (fmt : List FType) (tup : List Int) : Prop :=
  tup.length = fmt.length ∧ ∀ p ∈ fmt.zip tup, fieldFits p.1 p.2

instance (fmt : List FType) (tup : List Int) : Decidable (frameFits fmt tup) := by
  rw [frameFits]; infer_instance

theorem packFrame_of_fits (fmt : List FType) : ∀ tup : List Int,
    frameFits fmt tup → ∃ bs, packFrame fmt tup = some bs := by
  induction fmt with
  | nil =>
    intro tup ⟨hlen, _⟩
    cases tup with
    | nil => exact ⟨[], rfl⟩
    | cons v vs => simp at hlen
  | cons f fs ih =>
    intro tup ⟨hlen, hfit⟩
    cases tup with
    | nil => simp at hlen
    | cons v vs =>
      have hv : fieldFits f v := hfit (f, v) (by simp [List.zip_cons_cons])
      have hbs : ∃ bs, packField f v = some bs := by
        cases f
        all_goals rw [packField, if_pos (by rw [fieldFits] at hv; exact hv)]
        all_goals exact ⟨_, rfl⟩
      obtain ⟨bs, hb⟩ := hbs
      obtain ⟨rest, hr⟩ := ih vs ⟨by simpa using hlen,
        fun p hp => hfit p (by simp [List.zip_cons_cons, hp])⟩
      exact ⟨bs ++ rest, by
        rw [packFrame, hb, hr]
        simp only [Option.pure_def, Option.bind_eq_bind, Option.some_bind]⟩

theorem unpackLoop_flatten (fmt : List FType) (size : Nat)
    (hsz : size = fmtSize fmt) (hpos : 1 ≤ size) :
    ∀ (frames : List (List Int)) (parts : List (List Nat)),
    frames.mapM (packFrame fmt) = some parts →
    unpackLoop fmt size parts.flatten = .ok frames := by
  intro frames
  induction frames with
  | nil =>
    intro parts h
    simp only [List.mapM_nil, pure, Option.some.injEq] at h
    subst h
    rfl
  | cons t ts ih =>
    intro parts h
    rw [List.mapM_cons] at h
    simp only [Option.pure_def, Option.bind_eq_bind, Option.bind_eq_some,
      Option.some.injEq] at h
    obtain ⟨b, hb, bs, hbs, rfl⟩ := h
    have hblen : b.length = size := by rw [hsz]; exact packFrame_length fmt t b hb
    have hlen : (List.flatten (b :: bs)).length = b.length + bs.flatten.length := by
      simp
    rw [List.flatten_cons, unpackLoop_eq fmt size _ hpos]
    rw [dif_neg (by
      intro hnil
      have : (b ++ bs.flatten).length = 0 := by rw [hnil]; rfl
      simp only [List.length_append] at this
      omega)]
    rw [dif_neg (by
      simp only [List.length_append]
      omega)]
    have htake : (b ++ bs.flatten).take size = b := by
      rw [← hblen]
      exact List.take_left b bs.flatten
    have hdrop : (b ++ bs.flatten).drop size = bs.flatten := by
      rw [← hblen]
      exact List.drop_left b bs.flatten
    rw [htake, hdrop, packFrame_unpack fmt t b hb, ih bs hbs]
    rfl

/-- Core of C9: a format's pack followed by unpack is the identity on
fitting frame sequences. -/
theorem pack_unpack_frames (t : String) (fmt : List FType)
    (ht : STRUCT_FORMATS t = some fmt) (frames : List (List Int))
    (hfit : ∀ fr ∈ frames, frameFits fmt fr) :
    ∃ b, pack_frames t frames = some b ∧ unpack_frames t b = .ok frames := by
  have hparts : ∃ parts, frames.mapM (packFrame fmt) = some parts := by
    induction frames with
    | nil => exact ⟨[], rfl⟩
    | cons fr frs ih =>
      obtain ⟨bs, hbs⟩ := packFrame_of_fits fmt fr (hfit fr (by simp))
      obtain ⟨parts, hp⟩ := ih (fun fr' h' => hfit fr' (by simp [h']))
      exact ⟨bs :: parts, by rw [List.mapM_cons, hbs, hp]; rfl⟩
  obtain ⟨parts, hp⟩ := hparts
  refine ⟨parts.flatten, ?_, ?_⟩
  · rw [pack_frames, ht]
    simp only [Option.pure_def, Option.bind_eq_bind, Option.some_bind]
    rw [hp]
    rfl
  · rw [unpack_frames, ht]
    exact unpackLoop_flatten fmt (fmtSize fmt) rfl (fmtSize_pos t fmt ht) frames parts hp

/-- Core of C10's struct-error clause: a byte string whose length is not a
multiple of the frame size makes the unpack loop fail on its short final
chunk. -/
theorem unpackLoop_mod_ne (fmt : List FType) (size : Nat) (hpos : 1 ≤ size) :
    ∀ data : List Nat, data.length % size ≠ 0 →
    unpackLoop fmt size data = .error .structError := by
  have main : ∀ n, ∀ data : List Nat, data.length = n → data.length % size ≠ 0 →
      unpackLoop fmt size data = .error .structError := by
    intro n
    induction n using Nat.strong_induction_on with
    | _ n ih =>
      intro data hlen hmod
      rw [unpackLoop_eq fmt size data hpos]
      rw [dif_neg (by
        intro hnil
        subst hnil
        exact hmod (Nat.zero_mod size))]
      by_cases hshort : data.length < size ∨ size = 0
      · rw [dif_pos hshort]
      · rw [dif_neg hshort]
        push_neg at hshort
        have hrec := ih (data.length - size) (by omega) (data.drop size)
          (by simp) (by
            simp only [List.length_drop]
            rw [← Nat.mod_eq_sub_mod (by omega)]
            exact hmod)
        cases hu : unpackFields fmt (data.take size) with
        | some fr => simp [hu, hrec, Except.map]
        | none => simp [hu]
  exact fun data => main data.length data rfl

/-! ## The data model of `notation.py` (dataclasses, field for field) -/

/-- One frame tuple (a Python tuple of ints). -/
abbrev Frame := List Int

structure NoteEvent where
  frame : Int
  event : String
  note : Int
  octave : Int
  pitch : Int
  volume : Int
  duty_cycle : Int := 0
  instrument : Option Int := none
deriving DecidableEq, Repr

structure RawDataRef where
  byte_offset : Int
  byte_length : Int
  frame_size : Int
  struct_format : String
deriving DecidableEq, Repr

structure ChannelData where
  channel_id : Int
  channel_type : String
  channel_name : String
  notes : List NoteEvent := []
  raw_data_ref : Option RawDataRef := none
  raw_frames : Option (List Frame) := none
deriving DecidableEq, Repr

structure SongData where
  index : Int
  name : String
  num_frames : Int
  pattern_length : Int := 256
  channels : List ChannelData := []
deriving DecidableEq, Repr

structure Metadata where
  title : String := ""
  artist : String := ""
  copyright : String := ""
  region : String := "ntsc"
  frame_rate : Int := 60
  expansion : Int := 0
  expansion_chips : Option (List String) := none
deriving DecidableEq, Repr

structure NotationFile where
  metadata : Metadata := {}
  songs : List SongData := []
deriving DecidableEq, Repr

/-! ## Expansion chips (`_EXPANSION_CHIPS`, `expansion_chip_list`) -/

/-- `(1 << k, name)` pairs, recorded by bit index `k`, in the source order. -/
def EXPANSION_CHIPS : List (Nat × String) :=
  [(0, "VRC6"), (1, "VRC7"), (2, "FDS"), (3, "MMC5"), (4, "N163"), (5, "S5B")]

/-- Bit `k` of a Python `int` (two's complement on negatives), so that
`mask & (1 << k) != 0` iff `intTestBit mask k`. -/
def intTestBit (m : Int) (k : Nat) : Bool :=
  match m with
  | .ofNat n => n.testBit k
  | .negSucc n => ! n.testBit k

/-- `expansion_chip_list(mask)`: the names whose bit is set, in fixed order. -/
def expansion_chip_list (mask : Int) : List String :=
  (EXPANSION_CHIPS.filter fun p => intTestBit mask p.1).map (·.2)

/-! ## Errors escaping `read`

The four `NotationError` subclasses of `notation.py`, plus the raw Python
exceptions that can escape `read` because nothing catches them
(`json`/decode errors, `KeyError` on required keys or unknown
`STRUCT_FORMATS` tags, `AttributeError` from `.get` on a non-dict, and the
bare `struct.error` of C10).  `illTyped` is a model-side marker for JSON
values of a type the schema forbids, where CPython would store the value
dynamically; no schema-conformant document reaches it. -/
inductive ReadErr where
  | invalidMagic (seen : List Nat)
  | unsupportedVersion (seen : Nat)
  | truncated (region : String) (need : Nat) (haveLen : Nat)
  | truncatedBinHeader
  | jsonError
  | keyError (key : String)
  | attrError
  | illTyped (what : String)
  | structError
deriving DecidableEq, Repr

/-- Membership in the closed `NotationError` taxonomy of §7. -/
def ReadErr.inClosedTaxonomy : ReadErr → Bool
  | .invalidMagic _ => true
  | .unsupportedVersion _ => true
  | .truncated _ _ _ => true
  | .truncatedBinHeader => true
  | _ => false

/-! ## JSON access helpers (Python dict/list operations, typed) -/

/-- `d.get(k)`: `AttributeError` when `d` is not a dict. -/
def pyGet (d : Json) (k : String) : Except ReadErr (Option Json) :=
  match d with
  | .jobj ms => .ok (ms.find k)
  | _ => .error .attrError

/-- `d.get(k, default)`. -/
def pyGetD (d : Json) (k : String) (dflt : Json) : Except ReadErr Json := do
  let r ← pyGet d k
  pure (r.getD dflt)

/-- `d[k]`: `KeyError` when absent. -/
def pyItem (d : Json) (k : String) : Except ReadErr Json :=
  match d with
  | .jobj ms =>
    match ms.find k with
    | some v => .ok v
    | none => .error (.keyError k)
  | _ => .error .attrError

def asStr : Json → Except ReadErr String
  | .jstr s => .ok s
  | _ => .error (.illTyped "str")

def asInt : Json → Except ReadErr Int
  | .jint n => .ok n
  | _ => .error (.illTyped "int")

def asOptInt : Json → Except ReadErr (Option Int)
  | .null => .ok none
  | .jint n => .ok (some n)
  | _ => .error (.illTyped "int or null")

def asArr : Json → Except ReadErr (List Json)
  | .jarr es => .ok es.toList
  | _ => .error (.illTyped "list")

def asStrList (j : Json) : Except ReadErr (List String) := do
  (← asArr j).mapM asStr

/-! ## JSON ↔ data (`_note_to_dict` … `from_json_dict`) -/

def note_to_dict (n : NoteEvent) : Json :=
  .jobj (.cons "frame" (.jint n.frame) (.cons "event" (.jstr n.event)
    (.cons "note" (.jint n.note) (.cons "octave" (.jint n.octave)
    (.cons "pitch" (.jint n.pitch) (.cons "volume" (.jint n.volume)
    (.cons "duty_cycle" (.jint n.duty_cycle)
    (.cons "instrument" (match n.instrument with
      | some i => .jint i
      | none => .null) .nil))))))))

def note_from_dict (d : Json) : Except ReadErr NoteEvent := do
  let frame ← asInt (← pyItem d "frame")
  let event ← asStr (← pyItem d "event")
  let note ← asInt (← pyItem d "note")
  let octave ← asInt (← pyItem d "octave")
  let pitch ← asInt (← pyItem d "pitch")
  let volume ← asInt (← pyItem d "volume")
  let duty ← asInt (← pyGetD d "duty_cycle" (.jint 0))
  let instr ←
    match ← pyGet d "instrument" with
    | none => pure none
    | some j => asOptInt j
  pure ⟨frame, event, note, octave, pitch, volume, duty, instr⟩

/-- The `raw_data_ref` entry `_channel_to_dict` writes (from the layout). -/
def ref_to_json : Option RawDataRef → Json
  | none => .null
  | some r =>
      .jobj (.cons "byte_offset" (.jint r.byte_offset)
        (.cons "byte_length" (.jint r.byte_length)
        (.cons "frame_size" (.jint r.frame_size)
        (.cons "struct_format" (.jstr r.struct_format) .nil))))

/-- `_channel_to_dict(ch, binary_layout)`: `ref` is this channel's layout
entry (the dict is keyed by object identity in Python; the pure model keys
it by position). -/
def channel_to_dict (ch : ChannelData) (ref : Option RawDataRef) : Json :=
  .jobj (.cons "channel_id" (.jint ch.channel_id)
    (.cons "channel_type" (.jstr ch.channel_type)
    (.cons "channel_name" (.jstr ch.channel_name)
    (.cons "notes" (.jarr (JList.ofList (ch.notes.map note_to_dict)))
    (.cons "raw_data_ref" (ref_to_json ref) .nil)))))

def channel_from_dict (d : Json) : Except ReadErr ChannelData := do
  let refJ ← pyGet d "raw_data_ref"
  let ref ←
    match refJ with
    | none => pure none
    | some .null => pure none
    | some r => do
        let off ← asInt (← pyItem r "byte_offset")
        let len ← asInt (← pyItem r "byte_length")
        let fsz ← asInt (← pyItem r "frame_size")
        let sf ← asStr (← pyItem r "struct_format")
        pure (some (RawDataRef.mk off len fsz sf))
  let cid ← asInt (← pyItem d "channel_id")
  let ctype ← asStr (← pyItem d "channel_type")
  let cname ← asStr (← pyItem d "channel_name")
  let notesJ ← asArr (← pyGetD d "notes" (.jarr .nil))
  let notes ← notesJ.mapM note_from_dict
  pure ⟨cid, ctype, cname, notes, ref, none⟩

/-! ## Binary layout (`compute_binary_layout`) -/

/-- Walk the channels of one song in declaration order: a channel
contributes a packed region exactly when its `raw_frames` is truthy
(non-`None`, non-empty) and its `channel_type` has a struct format. -/
def layoutChannels : List ChannelData → Nat → Option (List (Option RawDataRef) × List Nat)
  | [], _ => some ([], [])
  | ch :: rest, off =>
    match ch.raw_frames, STRUCT_FORMATS ch.channel_type with
    | some (f :: fs), some fmt => do
        let blob ← pack_frames ch.channel_type (f :: fs)
        let (refs, tail) ← layoutChannels rest (off + blob.length)
        some (some (RawDataRef.mk (off : Int) (blob.length : Int)
          ((fmtSize fmt : Nat) : Int) ch.channel_type) :: refs, blob ++ tail)
    | _, _ => do
        let (refs, tail) ← layoutChannels rest off
        some (none :: refs, tail)

def layoutSongs : List SongData → Nat → Option (List (List (Option RawDataRef)) × List Nat)
  | [], _ => some ([], [])
  | song :: rest, off => do
      let (refs, blob) ← layoutChannels song.channels off
      let (refsRest, blobRest) ← layoutSongs rest (off + blob.length)
      some (refs :: refsRest, blob ++ blobRest)

/-- `compute_binary_layout(data)`: per-song, per-channel optional refs plus
the concatenated binary blob.  `none` models a `struct.error` from
`pack_frames` on out-of-range or wrong-arity frames. -/
def compute_binary_layout (x : NotationFile) :
    Option (List (List (Option RawDataRef)) × List Nat) :=
  layoutSongs x.songs 0

/-! ## `to_json_dict` / `from_json_dict` -/

def song_to_dict (song : SongData) (refs : List (Option RawDataRef)) : Json :=
  .jobj (.cons "index" (.jint song.index) (.cons "name" (.jstr song.name)
    (.cons "num_frames" (.jint song.num_frames)
    (.cons "pattern_length" (.jint song.pattern_length)
    (.cons "channels" (.jarr (JList.ofList
      ((song.channels.zip refs).map fun p => channel_to_dict p.1 p.2))) .nil)))))

def to_json_dict (x : NotationFile) (layout : List (List (Option RawDataRef))) : Json :=
  let chips := match x.metadata.expansion_chips with
    | none => expansion_chip_list x.metadata.expansion
    | some cs => cs
  .jobj (.cons "format" (.jstr "nsfn") (.cons "version" (.jint 1)
    (.cons "metadata" (.jobj (.cons "title" (.jstr x.metadata.title)
      (.cons "artist" (.jstr x.metadata.artist)
      (.cons "copyright" (.jstr x.metadata.copyright)
      (.cons "region" (.jstr x.metadata.region)
      (.cons "frame_rate" (.jint x.metadata.frame_rate)
      (.cons "expansion" (.jint x.metadata.expansion)
      (.cons "expansion_chips" (.jarr (JList.ofList (chips.map Json.jstr)))
        .nil))))))))
    (.cons "songs" (.jarr (JList.ofList
      ((x.songs.zip layout).map fun p => song_to_dict p.1 p.2))) .nil))))

/-- The per-channel body of `from_json_dict`'s loop: parse the channel dict
and, when it has a `raw_data_ref` and the binary chunk is non-empty
(`if ch.raw_data_ref is not None and binary_data:`), slice and unpack. -/
def recover_channel (binary_data : List Nat) (cd : Json) :
    Except ReadErr ChannelData := do
  let ch ← channel_from_dict cd
  match ch.raw_data_ref, binary_data with
  | some ref, _ :: _ =>
      match unpack_frames ref.struct_format
        (pySlice binary_data ref.byte_offset (ref.byte_offset + ref.byte_length)) with
      | .ok frames => pure { ch with raw_frames := some frames }
      | .error .keyError => throw (.keyError ref.struct_format)
      | .error .structError => throw .structError
  | _, _ => pure ch

/-- The per-song body of `from_json_dict`'s loop. -/
def recover_song (binary_data : List Nat) (sd : Json) : Except ReadErr SongData := do
  let chansJ ← asArr (← pyGetD sd "channels" (.jarr .nil))
  let channels ← chansJ.mapM (recover_channel binary_data)
  let index ← asInt (← pyItem sd "index")
  let name ← asStr (← pyItem sd "name")
  let num_frames ← asInt (← pyItem sd "num_frames")
  let pat ← asInt (← pyGetD sd "pattern_length" (.jint 256))
  pure (SongData.mk index name num_frames pat channels)

def from_json_dict (d : Json) (binary_data : List Nat) :
    Except ReadErr NotationFile := do
  let md ← pyGetD d "metadata" (.jobj .nil)
  let title ← asStr (← pyGetD md "title" (.jstr ""))
  let artist ← asStr (← pyGetD md "artist" (.jstr ""))
  let copyright ← asStr (← pyGetD md "copyright" (.jstr ""))
  let region ← asStr (← pyGetD md "region" (.jstr "ntsc"))
  let frame_rate ← asInt (← pyGetD md "frame_rate" (.jint 60))
  let expansion ← asInt (← pyGetD md "expansion" (.jint 0))
  let chips ←
    match ← pyGet md "expansion_chips" with
    | none => pure none
    | some .null => pure none
    | some j => do pure (some (← asStrList j))
  let songsJ ← asArr (← pyGetD d "songs" (.jarr .nil))
  let songs ← songsJ.mapM (recover_song binary_data)
  pure ⟨⟨title, artist, copyright, region, frame_rate, expansion, chips⟩, songs⟩

/-! ## `write` / `read` -/

def MAGIC : List Nat := [78, 83, 70, 78]

def VERSION : Nat := 1

def HEADER_SIZE : Nat := 12

/-- `write(path, data)`, as the byte string it produces; `none` models a
raised exception (`struct.error` from packing, or a length over the
`<I` range). -/
def write (x : NotationFile) : Option (List Nat) := do
  let (layout, blob) ← compute_binary_layout x
  let jb := jsonEncode (to_json_dict x layout)
  if jb.length < 4294967296 ∧ blob.length < 4294967296 then
    some (MAGIC ++ le32enc VERSION ++ le32enc jb.length ++ jb
      ++ le32enc blob.length ++ blob)
  else none

/-- `read(path)` on the file's bytes, mirroring the source line for line:
header length check, magic, version, JSON framing, `json.loads`, binary
framing, then `from_json_dict`. -/
def read (raw : List Nat) : Except ReadErr NotationFile := do
  if raw.length < HEADER_SIZE then
    throw (.truncated "header" HEADER_SIZE raw.length)
  let magic := raw.take 4
  if magic ≠ MAGIC then
    throw (.invalidMagic magic)
  let version := le32dec (raw.drop 4)
  if version ≠ VERSION then
    throw (.unsupportedVersion version)
  let json_len := le32dec (raw.drop 8)
  let json_end := 12 + json_len
  if json_end > raw.length then
    throw (.truncated "json" json_end raw.length)
  let json_bytes := (raw.drop 12).take json_len
  let json_dict ←
    match jsonDecode json_bytes with
    | some j => pure j
    | none => throw .jsonError
  let bin_header_end := json_end + 4
  if bin_header_end > raw.length then
    throw .truncatedBinHeader
  let bin_len := le32dec (raw.drop json_end)
  let bin_end := bin_header_end + bin_len
  if bin_end > raw.length then
    throw (.truncated "binary" bin_end raw.length)
  let binary_data := (raw.drop bin_header_end).take bin_len
  from_json_dict json_dict binary_data

/-! ## Read-back lemmas: `from_json_dict` inverts `to_json_dict` -/

theorem ok_bind {e a b : Type} (x : a) (f : a → Except e b) :
    (Except.ok x >>= f) = f x := rfl

theorem error_bind {e a b : Type} (err : e) (f : a → Except e b) :
    ((Except.error err : Except e a) >>= f) = Except.error err := rfl

theorem note_from_to (n : NoteEvent) : note_from_dict (note_to_dict n) = .ok n := by
  cases n with
  | mk frame event note octave pitch volume duty instr =>
    cases instr with
    | none =>
      simp [note_to_dict, note_from_dict, pyItem, pyGetD, pyGet, asInt, asStr,
        asOptInt, JMems.find, ok_bind]
    | some i =>
      simp [note_to_dict, note_from_dict, pyItem, pyGetD, pyGet, asInt, asStr,
        asOptInt, JMems.find, ok_bind]

theorem exc_map_ok {e a b : Type} (f : a → b) (x : a) :
    (f <$> (Except.ok x : Except e a)) = .ok (f x) := rfl

theorem mapM_note_list (notes : List NoteEvent) :
    (notes.map note_to_dict).mapM note_from_dict = .ok notes := by
  induction notes with
  | nil => rfl
  | cons n ns ih =>
    rw [List.map_cons, List.mapM_cons, note_from_to, ok_bind, ih, ok_bind]
    rfl

theorem mapM_loop_notes (notes : List NoteEvent) (acc : List NoteEvent) :
    List.mapM.loop note_from_dict (notes.map note_to_dict) acc =
      .ok (acc.reverse ++ notes) := by
  induction notes generalizing acc with
  | nil => simp [List.mapM.loop, pure, Except.pure]
  | cons n ns ih =>
    rw [List.map_cons, List.mapM.loop, note_from_to, ok_bind, ih]
    simp

theorem channel_from_to (ch : ChannelData) (ref : Option RawDataRef) :
    channel_from_dict (channel_to_dict ch ref) =
      .ok { ch with raw_data_ref := ref, raw_frames := none } := by
  cases ch with
  | mk cid ctype cname notes oldref oldframes =>
    cases ref with
    | none =>
      simp [channel_to_dict, channel_from_dict, ref_to_json, pyItem, pyGetD,
        pyGet, asInt, asStr, asArr, JMems.find, ok_bind, mapM_note_list,
        JList.toList_ofList, mapM_loop_notes, exc_map_ok]
    | some r =>
      cases r with
      | mk o l fsz sf =>
        simp [channel_to_dict, channel_from_dict, ref_to_json, pyItem, pyGetD,
          pyGet, asInt, asStr, asArr, JMems.find, ok_bind, mapM_note_list,
          JList.toList_ofList, mapM_loop_notes, exc_map_ok]

theorem pack_frames_inv (ct : String) (frs : List Frame) (blob : List Nat)
    (h : pack_frames ct frs = some blob) :
    ∃ fmt parts, STRUCT_FORMATS ct = some fmt ∧
      frs.mapM (packFrame fmt) = some parts ∧ blob = parts.flatten := by
  rw [pack_frames] at h
  cases hf : STRUCT_FORMATS ct with
  | none => rw [hf] at h; simp at h
  | some fmt =>
    rw [hf] at h
    simp only [Option.pure_def, Option.bind_eq_bind, Option.some_bind] at h
    cases hp : frs.mapM (packFrame fmt) with
    | none => rw [hp] at h; simp at h
    | some parts =>
      rw [hp] at h
      simp only [Option.some_bind, Option.some.injEq] at h
      exact ⟨fmt, parts, rfl, hp, h.symm⟩

theorem unpack_pack (ct : String) (frs : List Frame) (blob : List Nat)
    (h : pack_frames ct frs = some blob) : unpack_frames ct blob = .ok frs := by
  obtain ⟨fmt, parts, hf, hp, rfl⟩ := pack_frames_inv ct frs blob h
  rw [unpack_frames.eq_def, hf]
  exact unpackLoop_flatten fmt (fmtSize fmt) rfl (fmtSize_pos ct fmt hf) frs parts hp

theorem pack_blob_len_pos (ct : String) (f : Frame) (fs : List Frame)
    (blob : List Nat) (h : pack_frames ct (f :: fs) = some blob) :
    0 < blob.length := by
  obtain ⟨fmt, parts, hf, hp, rfl⟩ := pack_frames_inv ct (f :: fs) blob h
  rw [List.mapM_cons] at hp
  simp only [Option.pure_def, Option.bind_eq_bind, Option.bind_eq_some,
    Option.some.injEq] at hp
  obtain ⟨b, hb, rest, hrest, rfl⟩ := hp
  have hlen := packFrame_length fmt f b hb
  have hpos := fmtSize_pos ct fmt hf
  simp only [List.flatten_cons, List.length_append]
  omega

theorem layoutChannels_nil (off : Nat) : layoutChannels [] off = some ([], []) := rfl

theorem layoutChannels_cons_ref (ch : ChannelData) (rest : List ChannelData)
    (off : Nat) (f : Frame) (fs : List Frame) (fmt : List FType)
    (hrf : ch.raw_frames = some (f :: fs))
    (hsf : STRUCT_FORMATS ch.channel_type = some fmt) :
    layoutChannels (ch :: rest) off =
      (do
        let blob ← pack_frames ch.channel_type (f :: fs)
        let (refs, tail) ← layoutChannels rest (off + blob.length)
        some (some (RawDataRef.mk (off : Int) (blob.length : Int)
          ((fmtSize fmt : Nat) : Int) ch.channel_type) :: refs, blob ++ tail)) := by
  rw [layoutChannels.eq_def]
  simp only [hrf, hsf]

theorem layoutChannels_cons_none (ch : ChannelData) (rest : List ChannelData)
    (off : Nat) (hrf : ch.raw_frames = none) :
    layoutChannels (ch :: rest) off =
      (do
        let (refs, tail) ← layoutChannels rest off
        some (none :: refs, tail)) := by
  rw [layoutChannels.eq_def]
  simp only [hrf]

theorem layoutChannels_cons_empty (ch : ChannelData) (rest : List ChannelData)
    (off : Nat) (hrf : ch.raw_frames = some []) :
    layoutChannels (ch :: rest) off =
      (do
        let (refs, tail) ← layoutChannels rest off
        some (none :: refs, tail)) := by
  rw [layoutChannels.eq_def]
  simp only [hrf]

theorem layoutChannels_cons_nofmt (ch : ChannelData) (rest : List ChannelData)
    (off : Nat) (f : Frame) (fs : List Frame)
    (hrf : ch.raw_frames = some (f :: fs))
    (hsf : STRUCT_FORMATS ch.channel_type = none) :
    layoutChannels (ch :: rest) off =
      (do
        let (refs, tail) ← layoutChannels rest off
        some (none :: refs, tail)) := by
  rw [layoutChannels.eq_def]
  simp only [hrf, hsf]

theorem recover_channel_noref (B : List Nat) (cd : Json) (ch : ChannelData)
    (hc : channel_from_dict cd = .ok ch) (hr : ch.raw_data_ref = none) :
    recover_channel B cd = .ok ch := by
  rw [recover_channel, hc, ok_bind]
  cases B <;> simp [hr, pure, Except.pure]

theorem recover_channel_ok (B : List Nat) (cd : Json) (ch : ChannelData)
    (r : RawDataRef) (frames : List Frame) (hne : B ≠ [])
    (hc : channel_from_dict cd = .ok ch) (hr : ch.raw_data_ref = some r)
    (hu : unpack_frames r.struct_format
      (pySlice B r.byte_offset (r.byte_offset + r.byte_length)) = .ok frames) :
    recover_channel B cd = .ok { ch with raw_frames := some frames } := by
  rw [recover_channel, hc, ok_bind]
  obtain ⟨b0, bs, rfl⟩ := List.exists_cons_of_ne_nil hne
  simp only [hr, hu]
  rfl

theorem slice_middle (pre blob rest : List Nat) :
    pySlice (pre ++ (blob ++ rest)) (pre.length : Int)
      ((pre.length : Int) + (blob.length : Int)) = blob := by
  rw [pySlice_exact _ _ _ (by simp only [List.length_append]; omega),
    List.drop_left, List.take_left]

/-- Reading back the channel dicts written for one song recovers each
channel: `raw_data_ref` is set from the layout, `raw_frames` is restored
through the binary chunk, and a channel that contributed no region comes
back with both fields `none`. -/
theorem channels_readback :
    ∀ (chs : List ChannelData) (pre suf localB : List Nat)
      (refs : List (Option RawDataRef)),
    layoutChannels chs pre.length = some (refs, localB) →
    ((chs.zip refs).map fun p => channel_to_dict p.1 p.2).mapM
        (recover_channel (pre ++ (localB ++ suf))) =
      .ok ((chs.zip refs).map fun p =>
        match p.2 with
        | some r => { p.1 with raw_data_ref := some r }
        | none => { p.1 with raw_data_ref := none, raw_frames := none }) := by
  intro chs
  induction chs with
  | nil =>
    intro pre suf localB refs h
    rw [layoutChannels_nil] at h
    simp only [Option.some.injEq, Prod.mk.injEq] at h
    obtain ⟨rfl, rfl⟩ := h
    rfl
  | cons ch rest ih =>
    intro pre suf localB refs h
    have noref_case : (layoutChannels (ch :: rest) pre.length =
        (do
          let (refs2, tail) ← layoutChannels rest pre.length
          some ((none : Option RawDataRef) :: refs2, tail))) →
        ((((ch :: rest).zip refs).map fun p => channel_to_dict p.1 p.2).mapM
          (recover_channel (pre ++ (localB ++ suf))) =
        .ok (((ch :: rest).zip refs).map fun p =>
          match p.2 with
          | some r => { p.1 with raw_data_ref := some r }
          | none => { p.1 with raw_data_ref := none, raw_frames := none })) := by
      intro hstep
      rw [hstep] at h
      cases hrec : layoutChannels rest pre.length with
      | none => rw [hrec] at h; simp at h
      | some p =>
        obtain ⟨refs2, tail⟩ := p
        rw [hrec] at h
        simp only [Option.pure_def, Option.bind_eq_bind, Option.some_bind,
          Option.some.injEq, Prod.mk.injEq] at h
        obtain ⟨rfl, rfl⟩ := h
        rw [List.zip_cons_cons, List.map_cons, List.mapM_cons,
          recover_channel_noref _ _ _ (channel_from_to ch none) rfl, ok_bind,
          ih pre suf tail refs2 hrec, ok_bind]
        rfl
    cases hrf : ch.raw_frames with
    | none => exact noref_case (layoutChannels_cons_none ch rest _ hrf)
    | some frs =>
      cases frs with
      | nil => exact noref_case (layoutChannels_cons_empty ch rest _ hrf)
      | cons f fs =>
        cases hsf : STRUCT_FORMATS ch.channel_type with
        | none => exact noref_case (layoutChannels_cons_nofmt ch rest _ f fs hrf hsf)
        | some fmt =>
          rw [layoutChannels_cons_ref ch rest _ f fs fmt hrf hsf] at h
          cases hblob : pack_frames ch.channel_type (f :: fs) with
          | none => rw [hblob] at h; simp at h
          | some blob =>
            rw [hblob] at h
            simp only [Option.pure_def, Option.bind_eq_bind, Option.some_bind] at h
            cases hrec : layoutChannels rest (pre.length + blob.length) with
            | none => rw [hrec] at h; simp at h
            | some p =>
              obtain ⟨refs2, tail⟩ := p
              rw [hrec] at h
              simp only [Option.some_bind, Option.some.injEq, Prod.mk.injEq] at h
              obtain ⟨rfl, rfl⟩ := h
              have hBassoc : pre ++ (blob ++ tail ++ suf)
                  = pre ++ (blob ++ (tail ++ suf)) := by
                rw [List.append_assoc]
              rw [List.zip_cons_cons, List.map_cons, List.mapM_cons, hBassoc]
              have hne : pre ++ (blob ++ (tail ++ suf)) ≠ [] := by
                have hpos := pack_blob_len_pos ch.channel_type f fs blob hblob
                intro hcon
                have hlen : (pre ++ (blob ++ (tail ++ suf))).length = 0 := by
                  rw [hcon]; rfl
                simp only [List.length_append] at hlen
                omega
              have hu : unpack_frames ch.channel_type
                  (pySlice (pre ++ (blob ++ (tail ++ suf))) (pre.length : Int)
                    ((pre.length : Int) + (blob.length : Int)))
                  = .ok (f :: fs) := by
                rw [slice_middle]
                exact unpack_pack ch.channel_type (f :: fs) blob hblob
              rw [recover_channel_ok _ _ _ _ _ hne
                (channel_from_to ch (some (RawDataRef.mk ((pre.length : Nat) : Int)
                  ((blob.length : Nat) : Int) ((fmtSize fmt : Nat) : Int)
                  ch.channel_type))) rfl hu, ok_bind]
              have hIH := ih (pre ++ blob) suf tail refs2 (by
                rw [List.length_append]
                exact hrec)
              rw [show pre ++ (blob ++ (tail ++ suf))
                  = (pre ++ blob) ++ (tail ++ suf) from
                  (List.append_assoc pre blob (tail ++ suf)).symm, hIH, ok_bind]
              simp only [pure, Except.pure, Except.ok.injEq, List.cons.injEq]
              cases ch with
              | mk a b c d e ff =>
                simp only [ChannelData.raw_frames] at hrf
                simp [hrf]

theorem exc_pure_bind {e a b : Type} (x : a) (f : a → Except e b) :
    ((pure x : Except e a) >>= f) = f x := rfl

theorem le32dec_le32enc_append (n : Nat) (rest : List Nat) (h : n < 4294967296) :
    le32dec (le32enc n ++ rest) = n := by
  simp only [le32enc, le32dec, List.cons_append, List.nil_append]
  omega

theorem mapM_str_list (cs : List String) :
    (cs.map Json.jstr).mapM asStr = Except.ok (ε := ReadErr) cs := by
  induction cs with
  | nil => rfl
  | cons c cs ih =>
    rw [List.map_cons, List.mapM_cons, ih]
    rfl

theorem asStrList_of (cs : List String) :
    asStrList (.jarr (JList.ofList (cs.map Json.jstr))) = .ok cs := by
  rw [asStrList]
  simp only [asArr, JList.toList_ofList, ok_bind]
  exact mapM_str_list cs

/-- `recover_song` inverts `song_to_dict`: every field is restored, and the
channels come back through `channels_readback`. -/
theorem song_readback (song : SongData) (refs : List (Option RawDataRef))
    (pre suf localB : List Nat)
    (h : layoutChannels song.channels pre.length = some (refs, localB)) :
    recover_song (pre ++ (localB ++ suf)) (song_to_dict song refs) =
      .ok { song with channels :=
        (song.channels.zip refs).map fun p =>
          match p.2 with
          | some r => { p.1 with raw_data_ref := some r }
          | none => { p.1 with raw_data_ref := none, raw_frames := none } } := by
  rw [recover_song, song_to_dict]
  simp only [pyGetD, pyGet, pyItem, JMems.find, asArr, asInt, asStr, ok_bind,
    exc_pure_bind, JList.toList_ofList, Option.getD, String.reduceEq, reduceIte,
    if_true, if_false]
  rw [channels_readback song.channels pre suf localB refs h, ok_bind]
  rfl

/-- Lifting `song_readback` over the song list against `layoutSongs`. -/
theorem songs_readback :
    ∀ (songs : List SongData) (pre suf localB : List Nat)
      (refs : List (List (Option RawDataRef))),
    layoutSongs songs pre.length = some (refs, localB) →
    ((songs.zip refs).map fun p => song_to_dict p.1 p.2).mapM
        (recover_song (pre ++ (localB ++ suf))) =
      .ok ((songs.zip refs).map fun p =>
        { p.1 with channels :=
          (p.1.channels.zip p.2).map fun q =>
            match q.2 with
            | some r => { q.1 with raw_data_ref := some r }
            | none => { q.1 with raw_data_ref := none, raw_frames := none } }) := by
  intro songs
  induction songs with
  | nil =>
    intro pre suf localB refs h
    simp only [layoutSongs, Option.some.injEq, Prod.mk.injEq] at h
    obtain ⟨rfl, rfl⟩ := h
    rfl
  | cons song rest ih =>
    intro pre suf localB refs h
    rw [layoutSongs] at h
    cases hch : layoutChannels song.channels pre.length with
    | none => rw [hch] at h; simp at h
    | some p =>
      obtain ⟨refs1, blob⟩ := p
      rw [hch] at h
      simp only [Option.pure_def, Option.bind_eq_bind, Option.some_bind] at h
      cases hrec : layoutSongs rest (pre.length + blob.length) with
      | none => rw [hrec] at h; simp at h
      | some q =>
        obtain ⟨refsRest, blobRest⟩ := q
        rw [hrec] at h
        simp only [Option.some_bind, Option.some.injEq, Prod.mk.injEq] at h
        obtain ⟨rfl, rfl⟩ := h
        have hBassoc : pre ++ (blob ++ blobRest ++ suf)
            = pre ++ (blob ++ (blobRest ++ suf)) := by
          rw [List.append_assoc]
        rw [List.zip_cons_cons, List.map_cons, List.mapM_cons, hBassoc,
          song_readback song refs1 pre (blobRest ++ suf) blob hch, ok_bind]
        have hIH := ih (pre ++ blob) suf blobRest refsRest (by
          rw [List.length_append]
          exact hrec)
        rw [show pre ++ (blob ++ (blobRest ++ suf))
            = (pre ++ blob) ++ (blobRest ++ suf) from
            (List.append_assoc pre blob (blobRest ++ suf)).symm, hIH, ok_bind]
        rfl

/-- The `expansion_chips` list that `to_json_dict` writes: the stored list
when present, otherwise the decoding of the `expansion` mask. -/
def chipsOnWrite (m : Metadata) : List String :=
  match m.expansion_chips with
  | none => expansion_chip_list m.expansion
  | some cs => cs

/-- What `read` recovers from a file written by `write` with binary layout
`layout`: `expansion_chips` is always populated (from the written list, or
decoded from `expansion` when it was `None`), every laid-out channel gains
its `raw_data_ref` and keeps its `raw_frames`, and a channel that
contributed no binary region comes back with both fields `none`. -/
def readback (x : NotationFile) (layout : List (List (Option RawDataRef))) :
    NotationFile :=
  { metadata := { x.metadata with expansion_chips := some (chipsOnWrite x.metadata) },
    songs := (x.songs.zip layout).map fun p =>
      { p.1 with channels :=
        (p.1.channels.zip p.2).map fun q =>
          match q.2 with
          | some r => { q.1 with raw_data_ref := some r }
          | none => { q.1 with raw_data_ref := none, raw_frames := none } } }

/-- `from_json_dict` inverts `to_json_dict` up to `readback`. -/
theorem from_to_json_dict (x : NotationFile)
    (layout : List (List (Option RawDataRef))) (blob : List Nat)
    (h : compute_binary_layout x = some (layout, blob)) :
    from_json_dict (to_json_dict x layout) blob = .ok (readback x layout) := by
  rw [compute_binary_layout] at h
  have hsongs := songs_readback x.songs [] [] blob layout h
  rw [List.nil_append, List.append_nil] at hsongs
  rw [from_json_dict, to_json_dict]
  simp only [pyGetD, pyGet, pyItem, JMems.find, asArr, asInt, asStr, ok_bind,
    exc_pure_bind, JList.toList_ofList, Option.getD, String.reduceEq, reduceIte,
    if_true, if_false]
  rw [asStrList_of, ok_bind, hsongs, ok_bind]
  simp only [readback, chipsOnWrite]
  cases hcs : x.metadata.expansion_chips <;> rfl

theorem drop_exact (l1 l2 : List Nat) (n : Nat) (h : n = l1.length) :
    (l1 ++ l2).drop n = l2 := by
  subst h
  exact List.drop_left l1 l2

theorem take_exact (l1 l2 : List Nat) (n : Nat) (h : n = l1.length) :
    (l1 ++ l2).take n = l1 := by
  subst h
  exact List.take_left l1 l2

/-- `read` undoes `write`: on the bytes `write` produced, `read` passes all
framing checks, decodes the JSON to the written dict, recovers the binary
chunk exactly, and returns `readback x layout`. -/
theorem read_write (x : NotationFile) (raw : List Nat)
    (layout : List (List (Option RawDataRef))) (blob : List Nat)
    (hl : compute_binary_layout x = some (layout, blob))
    (hw : write x = some raw) :
    read raw = .ok (readback x layout) := by
  rw [write, hl] at hw
  simp only [Option.pure_def, Option.bind_eq_bind, Option.some_bind] at hw
  by_cases hsz : (jsonEncode (to_json_dict x layout)).length < 4294967296 ∧
      blob.length < 4294967296
  case neg =>
    rw [if_neg hsz] at hw
    exact absurd hw (by simp)
  case pos =>
  rw [if_pos hsz] at hw
  obtain ⟨hjl, hbl⟩ := hsz
  have hraw : raw = MAGIC ++ (le32enc VERSION ++
      (le32enc (jsonEncode (to_json_dict x layout)).length ++
      (jsonEncode (to_json_dict x layout) ++ (le32enc blob.length ++ blob)))) := by
    rw [← Option.some.inj hw]
    simp [List.append_assoc]
  subst hraw
  have hL : (MAGIC ++ (le32enc VERSION ++
      (le32enc (jsonEncode (to_json_dict x layout)).length ++
      (jsonEncode (to_json_dict x layout) ++ (le32enc blob.length ++ blob))))).length
      = 16 + (jsonEncode (to_json_dict x layout)).length + blob.length := by
    simp only [List.length_append, le32enc_length]
    simp [MAGIC]
    omega
  have emagic : (MAGIC ++ (le32enc VERSION ++
      (le32enc (jsonEncode (to_json_dict x layout)).length ++
      (jsonEncode (to_json_dict x layout) ++ (le32enc blob.length ++ blob))))).take 4
      = MAGIC := take_exact _ _ 4 rfl
  have e4 : (MAGIC ++ (le32enc VERSION ++
      (le32enc (jsonEncode (to_json_dict x layout)).length ++
      (jsonEncode (to_json_dict x layout) ++ (le32enc blob.length ++ blob))))).drop 4
      = le32enc VERSION ++
        (le32enc (jsonEncode (to_json_dict x layout)).length ++
        (jsonEncode (to_json_dict x layout) ++ (le32enc blob.length ++ blob))) :=
    drop_exact _ _ 4 rfl
  have eversion : le32dec ((MAGIC ++ (le32enc VERSION ++
      (le32enc (jsonEncode (to_json_dict x layout)).length ++
      (jsonEncode (to_json_dict x layout) ++ (le32enc blob.length ++ blob))))).drop 4)
      = VERSION := by
    rw [e4]
    exact le32dec_le32enc_append VERSION _ (by rw [VERSION]; omega)
  have e8 : (MAGIC ++ (le32enc VERSION ++
      (le32enc (jsonEncode (to_json_dict x layout)).length ++
      (jsonEncode (to_json_dict x layout) ++ (le32enc blob.length ++ blob))))).drop 8
      = le32enc (jsonEncode (to_json_dict x layout)).length ++
        (jsonEncode (to_json_dict x layout) ++ (le32enc blob.length ++ blob)) := by
    rw [show (MAGIC ++ (le32enc VERSION ++
      (le32enc (jsonEncode (to_json_dict x layout)).length ++
      (jsonEncode (to_json_dict x layout) ++ (le32enc blob.length ++ blob)))))
      = (MAGIC ++ le32enc VERSION) ++
        (le32enc (jsonEncode (to_json_dict x layout)).length ++
        (jsonEncode (to_json_dict x layout) ++ (le32enc blob.length ++ blob))) from by
      simp [List.append_assoc]]
    exact drop_exact _ _ 8 (by simp [MAGIC, le32enc_length])
  have ejl : le32dec ((MAGIC ++ (le32enc VERSION ++
      (le32enc (jsonEncode (to_json_dict x layout)).length ++
      (jsonEncode (to_json_dict x layout) ++ (le32enc blob.length ++ blob))))).drop 8)
      = (jsonEncode (to_json_dict x layout)).length := by
    rw [e8]
    exact le32dec_le32enc_append _ _ hjl
  have e12 : (MAGIC ++ (le32enc VERSION ++
      (le32enc (jsonEncode (to_json_dict x layout)).length ++
      (jsonEncode (to_json_dict x layout) ++ (le32enc blob.length ++ blob))))).drop 12
      = jsonEncode (to_json_dict x layout) ++ (le32enc blob.length ++ blob) := by
    rw [show (MAGIC ++ (le32enc VERSION ++
      (le32enc (jsonEncode (to_json_dict x layout)).length ++
      (jsonEncode (to_json_dict x layout) ++ (le32enc blob.length ++ blob)))))
      = (MAGIC ++ (le32enc VERSION ++ le32enc (jsonEncode (to_json_dict x layout)).length)) ++
        (jsonEncode (to_json_dict x layout) ++ (le32enc blob.length ++ blob)) from by
      simp [List.append_assoc]]
    exact drop_exact _ _ 12 (by simp [MAGIC, le32enc_length])
  have etake : (jsonEncode (to_json_dict x layout) ++
      (le32enc blob.length ++ blob)).take (jsonEncode (to_json_dict x layout)).length
      = jsonEncode (to_json_dict x layout) := take_exact _ _ _ rfl
  have e16 : (MAGIC ++ (le32enc VERSION ++
      (le32enc (jsonEncode (to_json_dict x layout)).length ++
      (jsonEncode (to_json_dict x layout) ++ (le32enc blob.length ++ blob))))).drop
        (12 + (jsonEncode (to_json_dict x layout)).length)
      = le32enc blob.length ++ blob := by
    rw [show (MAGIC ++ (le32enc VERSION ++
      (le32enc (jsonEncode (to_json_dict x layout)).length ++
      (jsonEncode (to_json_dict x layout) ++ (le32enc blob.length ++ blob)))))
      = (MAGIC ++ (le32enc VERSION ++ (le32enc (jsonEncode (to_json_dict x layout)).length ++
        jsonEncode (to_json_dict x layout)))) ++ (le32enc blob.length ++ blob) from by
      simp [List.append_assoc]]
    exact drop_exact _ _ _ (by simp [MAGIC, le32enc_length]; omega)
  have ebl : le32dec ((MAGIC ++ (le32enc VERSION ++
      (le32enc (jsonEncode (to_json_dict x layout)).length ++
      (jsonEncode (to_json_dict x layout) ++ (le32enc blob.length ++ blob))))).drop
        (12 + (jsonEncode (to_json_dict x layout)).length))
      = blob.length := by
    rw [e16]
    exact le32dec_le32enc_append _ _ hbl
  have e20 : (MAGIC ++ (le32enc VERSION ++
      (le32enc (jsonEncode (to_json_dict x layout)).length ++
      (jsonEncode (to_json_dict x layout) ++ (le32enc blob.length ++ blob))))).drop
        (12 + (jsonEncode (to_json_dict x layout)).length + 4)
      = blob := by
    rw [show (MAGIC ++ (le32enc VERSION ++
      (le32enc (jsonEncode (to_json_dict x layout)).length ++
      (jsonEncode (to_json_dict x layout) ++ (le32enc blob.length ++ blob)))))
      = (MAGIC ++ (le32enc VERSION ++ (le32enc (jsonEncode (to_json_dict x layout)).length ++
        (jsonEncode (to_json_dict x layout) ++ le32enc blob.length)))) ++ blob from by
      simp [List.append_assoc]]
    exact drop_exact _ _ _ (by simp [MAGIC, le32enc_length]; omega)
  have h1 : ¬((MAGIC ++ (le32enc VERSION ++
      (le32enc (jsonEncode (to_json_dict x layout)).length ++
      (jsonEncode (to_json_dict x layout) ++ (le32enc blob.length ++ blob))))).length
      < HEADER_SIZE) := by
    rw [HEADER_SIZE, hL]
    omega
  have h2 : ¬(MAGIC ≠ MAGIC) := fun hc => hc rfl
  have h3 : ¬(VERSION ≠ VERSION) := fun hc => hc rfl
  have h4 : ¬(12 + (jsonEncode (to_json_dict x layout)).length >
      (MAGIC ++ (le32enc VERSION ++
      (le32enc (jsonEncode (to_json_dict x layout)).length ++
      (jsonEncode (to_json_dict x layout) ++ (le32enc blob.length ++ blob))))).length) := by
    rw [hL]
    omega
  have h5 : ¬(12 + (jsonEncode (to_json_dict x layout)).length + 4 >
      (MAGIC ++ (le32enc VERSION ++
      (le32enc (jsonEncode (to_json_dict x layout)).length ++
      (jsonEncode (to_json_dict x layout) ++ (le32enc blob.length ++ blob))))).length) := by
    rw [hL]
    omega
  have h6 : ¬(12 + (jsonEncode (to_json_dict x layout)).length + 4 + blob.length >
      (MAGIC ++ (le32enc VERSION ++
      (le32enc (jsonEncode (to_json_dict x layout)).length ++
      (jsonEncode (to_json_dict x layout) ++ (le32enc blob.length ++ blob))))).length) := by
    rw [hL]
    omega
  rw [read]
  simp only [emagic, eversion, ejl, ebl, e12, e16, e20, etake,
    le32dec_le32enc_append _ _ hbl, if_neg h1, if_neg h2,
    if_neg h3, if_neg h4, if_neg h5, if_neg h6, exc_pure_bind, ok_bind,
    jsonDecode_jsonEncode, List.take_length]
  exact from_to_json_dict x layout blob hl

/-! ## Public-field equality for the round-trip claim -/

/-- Equality of two channels on the public schema fields (id, type, name,
notes, `raw_frames`); `raw_data_ref` is the container-internal locator. -/
def channelPubEq (a b : ChannelData) : Prop :=
  a.channel_id = b.channel_id ∧ a.channel_type = b.channel_type ∧
  a.channel_name = b.channel_name ∧ a.notes = b.notes ∧
  a.raw_frames = b.raw_frames

instance (a b : ChannelData) : Decidable (channelPubEq a b) := by
  unfold channelPubEq
  infer_instance

/-- Equality of two songs on public fields, with channels compared
pairwise by `channelPubEq`. -/
def songPubEq (a b : SongData) : Prop :=
  a.index = b.index ∧ a.name = b.name ∧ a.num_frames = b.num_frames ∧
  a.pattern_length = b.pattern_length ∧ a.channels.length = b.channels.length ∧
  ∀ p ∈ a.channels.zip b.channels, channelPubEq p.1 p.2

instance (a b : SongData) : Decidable (songPubEq a b) := by
  unfold songPubEq
  infer_instance

/-- Equality of two notation files on all public fields (full metadata
including `expansion_chips`, and songs by `songPubEq`). -/
def publicEq (a b : NotationFile) : Prop :=
  a.metadata = b.metadata ∧ a.songs.length = b.songs.length ∧
  ∀ p ∈ a.songs.zip b.songs, songPubEq p.1 p.2

instance (a b : NotationFile) : Decidable (publicEq a b) := by
  unfold publicEq
  infer_instance

theorem layoutChannels_pub :
    ∀ (chs : List ChannelData) (off : Nat) (refs : List (Option RawDataRef))
      (b : List Nat),
    layoutChannels chs off = some (refs, b) →
    (∀ ch ∈ chs, ch.raw_frames ≠ some [] ∧
      (STRUCT_FORMATS ch.channel_type).isSome) →
    chs.length = refs.length ∧
    ∀ p ∈ chs.zip ((chs.zip refs).map fun q =>
        match q.2 with
        | some r => { q.1 with raw_data_ref := some r }
        | none => { q.1 with raw_data_ref := none, raw_frames := none }),
      channelPubEq p.1 p.2 := by
  intro chs
  induction chs with
  | nil =>
    intro off refs b h hne
    rw [layoutChannels_nil] at h
    simp only [Option.some.injEq, Prod.mk.injEq] at h
    obtain ⟨rfl, rfl⟩ := h
    exact ⟨rfl, by intro p hp; simp at hp⟩
  | cons ch rest ih =>
    intro off refs b h hne
    have hhd := hne ch (List.mem_cons_self ch rest)
    have htl : ∀ c ∈ rest, c.raw_frames ≠ some [] ∧
        (STRUCT_FORMATS c.channel_type).isSome :=
      fun c hc => hne c (List.mem_cons_of_mem ch hc)
    cases hrf : ch.raw_frames with
    | none =>
      rw [layoutChannels_cons_none ch rest off hrf] at h
      cases hrec : layoutChannels rest off with
      | none => rw [hrec] at h; simp at h
      | some p =>
        obtain ⟨refs2, tail⟩ := p
        rw [hrec] at h
        simp only [Option.pure_def, Option.bind_eq_bind, Option.some_bind,
          Option.some.injEq, Prod.mk.injEq] at h
        obtain ⟨rfl, rfl⟩ := h
        obtain ⟨ihlen, ihall⟩ := ih off refs2 tail hrec htl
        refine ⟨by simp [ihlen], ?_⟩
        intro p hp
        rw [List.zip_cons_cons, List.map_cons, List.zip_cons_cons,
          List.mem_cons] at hp
        rcases hp with rfl | hp
        · exact ⟨rfl, rfl, rfl, rfl, by rw [hrf]⟩
        · exact ihall p hp
    | some frs =>
      cases frs with
      | nil => exact absurd hrf hhd.1
      | cons f fs =>
        obtain ⟨fmt, hsf⟩ := Option.isSome_iff_exists.mp hhd.2
        rw [layoutChannels_cons_ref ch rest off f fs fmt hrf hsf] at h
        cases hblob : pack_frames ch.channel_type (f :: fs) with
        | none => rw [hblob] at h; simp at h
        | some blob =>
          rw [hblob] at h
          simp only [Option.pure_def, Option.bind_eq_bind, Option.some_bind] at h
          cases hrec : layoutChannels rest (off + blob.length) with
          | none => rw [hrec] at h; simp at h
          | some p =>
            obtain ⟨refs2, tail⟩ := p
            rw [hrec] at h
            simp only [Option.some_bind, Option.some.injEq, Prod.mk.injEq] at h
            obtain ⟨rfl, rfl⟩ := h
            obtain ⟨ihlen, ihall⟩ := ih (off + blob.length) refs2 tail hrec htl
            refine ⟨by simp [ihlen], ?_⟩
            intro p hp
            rw [List.zip_cons_cons, List.map_cons, List.zip_cons_cons,
              List.mem_cons] at hp
            rcases hp with rfl | hp
            · exact ⟨rfl, rfl, rfl, rfl, rfl⟩
            · exact ihall p hp

theorem layoutSongs_pub :
    ∀ (songs : List SongData) (off : Nat)
      (refs : List (List (Option RawDataRef))) (b : List Nat),
    layoutSongs songs off = some (refs, b) →
    (∀ s ∈ songs, ∀ ch ∈ s.channels, ch.raw_frames ≠ some [] ∧
      (STRUCT_FORMATS ch.channel_type).isSome) →
    songs.length = refs.length ∧
    ∀ p ∈ songs.zip ((songs.zip refs).map fun q =>
        { q.1 with channels :=
          (q.1.channels.zip q.2).map fun w =>
            match w.2 with
            | some r => { w.1 with raw_data_ref := some r }
            | none => { w.1 with raw_data_ref := none, raw_frames := none } }),
      songPubEq p.1 p.2 := by
  intro songs
  induction songs with
  | nil =>
    intro off refs b h hne
    simp only [layoutSongs, Option.some.injEq, Prod.mk.injEq] at h
    obtain ⟨rfl, rfl⟩ := h
    exact ⟨rfl, by intro p hp; simp at hp⟩
  | cons song rest ih =>
    intro off refs b h hne
    rw [layoutSongs] at h
    cases hch : layoutChannels song.channels off with
    | none => rw [hch] at h; simp at h
    | some p =>
      obtain ⟨refs1, blob⟩ := p
      rw [hch] at h
      simp only [Option.pure_def, Option.bind_eq_bind, Option.some_bind] at h
      cases hrec : layoutSongs rest (off + blob.length) with
      | none => rw [hrec] at h; simp at h
      | some q =>
        obtain ⟨refsRest, blobRest⟩ := q
        rw [hrec] at h
        simp only [Option.some_bind, Option.some.injEq, Prod.mk.injEq] at h
        obtain ⟨rfl, rfl⟩ := h
        obtain ⟨ihlen, ihall⟩ := ih (off + blob.length) refsRest blobRest hrec
          (fun s hs => hne s (List.mem_cons_of_mem song hs))
        obtain ⟨clen, call⟩ := layoutChannels_pub song.channels off refs1 blob hch
          (hne song (List.mem_cons_self song rest))
        refine ⟨by simp [ihlen], ?_⟩
        intro p hp
        rw [List.zip_cons_cons, List.map_cons, List.zip_cons_cons,
          List.mem_cons] at hp
        rcases hp with rfl | hp
        · exact ⟨rfl, rfl, rfl, rfl, by simp [← clen, List.length_zip, ← clen],
            call⟩
        · exact ihall p hp

/-- C1 (amended): for every `NotationFile` whose binary layout is
computable (all frame tuples pack), whose channels have no *empty*
`raw_frames` list, whose channel types all carry a struct format, and whose
`expansion_chips` is populated, `write` then `read` yields a file equal to
the input on all public fields — full metadata, song fields, and every
channel's id, type, name, notes and `raw_frames`.  (The original claim,
with no empty-`raw_frames` proviso, is refuted by
`nsfp_C1_counterexample`: a channel written with `raw_frames = []` reads
back with `raw_frames = None`, because `from_json_dict` only unpacks when
the channel has a `raw_data_ref` and the binary chunk is truthy.) -/
theorem nsfp_C1 (x : NotationFile) (raw : List Nat)
    (layout : List (List (Option RawDataRef))) (blob : List Nat)
    (hl : compute_binary_layout x = some (layout, blob))
    (hw : write x = some raw)
    (hchips : x.metadata.expansion_chips.isSome)
    (hne : ∀ s ∈ x.songs, ∀ ch ∈ s.channels, ch.raw_frames ≠ some [] ∧
      (STRUCT_FORMATS ch.channel_type).isSome) :
    ∃ y, read raw = .ok y ∧ publicEq x y := by
  have hl' : layoutSongs x.songs 0 = some (layout, blob) := by
    rw [← compute_binary_layout]
    exact hl
  obtain ⟨slen, sall⟩ := layoutSongs_pub x.songs 0 layout blob hl' hne
  refine ⟨readback x layout, read_write x raw layout blob hl hw, ?_, ?_, ?_⟩
  · obtain ⟨cs, hcs⟩ := Option.isSome_iff_exists.mp hchips
    have hcow : chipsOnWrite x.metadata = cs := by
      rw [chipsOnWrite.eq_def, hcs]
    simp only [readback]
    rw [hcow, ← hcs]
  · simp only [readback, List.length_map, List.length_zip, slen]
    omega
  · simp only [readback]
    exact sall

/-- A small single-song, single-channel file with a nonempty packable
square frame list and populated `expansion_chips`. -/
def C1exFile : NotationFile :=
  ⟨⟨"Title", "Artist", "(c)", "ntsc", 60, 0, some []⟩,
    [⟨0, "Song 1", 120, 256,
      [⟨0, "square", "Square 1",
        [⟨5, "trigger", 40, 3, -2, 10, 2, none⟩],
        none, some [[500, 12, 2]]⟩]⟩]⟩

set_option maxRecDepth 100000 in
theorem nsfp_C1_witness :
    ∃ y, read ((write C1exFile).getD []) = .ok y ∧ publicEq C1exFile y :=
  nsfp_C1 C1exFile ((write C1exFile).getD []) _ _ (by rfl) (by rfl) (by decide)
    (by decide)

/-- The same file with `raw_frames = some []` on its channel. -/
def C1emptyFrames : NotationFile :=
  ⟨⟨"Title", "Artist", "(c)", "ntsc", 60, 0, some []⟩,
    [⟨0, "Song 1", 120, 256,
      [⟨0, "square", "Square 1",
        [⟨5, "trigger", 40, 3, -2, 10, 2, none⟩],
        none, some []⟩]⟩]⟩

set_option maxRecDepth 100000 in
/-- Refutation of the unconditional C1 round-trip: writing a channel whose
`raw_frames` is the empty list succeeds, but reading the file back yields
`raw_frames = none` for that channel, differing from the input on a public
field. -/
theorem nsfp_C1_counterexample :
    ∃ raw y, write C1emptyFrames = some raw ∧ read raw = .ok y ∧
      ¬ publicEq C1emptyFrames y :=
  ⟨(write C1emptyFrames).getD [], readback C1emptyFrames [[none]],
    by rfl, by rfl, by decide⟩

/-! ## Claim theorems: container error handling and pack/unpack algebra -/

theorem throw_bind {e a b : Type} (err : e) (f : a → Except e b) :
    ((throw err : Except e a) >>= f) = Except.error err := rfl

/-- C9: for every channel type of §6.2 (one with a struct format) and every
sequence of frame tuples of matching arity whose values fit the declared
field widths, packing succeeds and `unpack_frames` inverts `pack_frames`. -/
theorem nsfp_C9 (t : String) (fmt : List FType) (fs : List Frame)
    (ht : STRUCT_FORMATS t = some fmt)
    (hfit : ∀ fr ∈ fs, frameFits fmt fr) :
    ∃ b, pack_frames t fs = some b ∧ unpack_frames t b = .ok fs :=
  pack_unpack_frames t fmt ht fs hfit

theorem nsfp_C9_witness :
    STRUCT_FORMATS "square" = some [FType.u16, FType.u8, FType.u8] ∧
    (∀ fr ∈ [[(500 : Int), 12, 2], [0, 255, 0]],
      frameFits [FType.u16, FType.u8, FType.u8] fr) ∧
    ∃ b, pack_frames "square" [[500, 12, 2], [0, 255, 0]] = some b ∧
      unpack_frames "square" b = .ok [[500, 12, 2], [0, 255, 0]] :=
  ⟨rfl, by decide,
    nsfp_C9 "square" [FType.u16, FType.u8, FType.u8]
      [[500, 12, 2], [0, 255, 0]] rfl (by decide)⟩

/-- C8: `read` fails with `InvalidMagicError` when a file of at least
header length does not begin with `b"NSFN"`, with `UnsupportedVersionError`
when the version field is not 1, and with `TruncatedFileError` whenever the
12-byte header, the JSON chunk, or the binary chunk overruns the file; in
particular a 3-byte file fails with need 12, have 3. -/
theorem nsfp_C8 :
    (∀ raw : List Nat, raw.length < 12 →
      read raw = .error (.truncated "header" 12 raw.length)) ∧
    (∀ raw : List Nat, ¬ raw.length < 12 → raw.take 4 ≠ MAGIC →
      read raw = .error (.invalidMagic (raw.take 4))) ∧
    (∀ raw : List Nat, ¬ raw.length < 12 → raw.take 4 = MAGIC →
      le32dec (raw.drop 4) ≠ VERSION →
      read raw = .error (.unsupportedVersion (le32dec (raw.drop 4)))) ∧
    (∀ raw : List Nat, ¬ raw.length < 12 → raw.take 4 = MAGIC →
      le32dec (raw.drop 4) = VERSION →
      12 + le32dec (raw.drop 8) > raw.length →
      read raw = .error (.truncated "json" (12 + le32dec (raw.drop 8)) raw.length)) ∧
    (∀ (raw : List Nat) (j : Json), ¬ raw.length < 12 → raw.take 4 = MAGIC →
      le32dec (raw.drop 4) = VERSION →
      ¬ 12 + le32dec (raw.drop 8) > raw.length →
      jsonDecode ((raw.drop 12).take (le32dec (raw.drop 8))) = some j →
      ¬ 12 + le32dec (raw.drop 8) + 4 > raw.length →
      12 + le32dec (raw.drop 8) + 4 +
        le32dec (raw.drop (12 + le32dec (raw.drop 8))) > raw.length →
      read raw = .error (.truncated "binary"
        (12 + le32dec (raw.drop 8) + 4 +
          le32dec (raw.drop (12 + le32dec (raw.drop 8)))) raw.length)) ∧
    read [0, 0, 0] = .error (.truncated "header" 12 3) := by
  refine ⟨?_, ?_, ?_, ?_, ?_, by rfl⟩
  · intro raw h
    rw [read]
    simp only [HEADER_SIZE, if_pos h, throw_bind]
  · intro raw h1 h2
    rw [read]
    simp only [HEADER_SIZE, if_neg h1, exc_pure_bind, if_pos h2, throw_bind]
  · intro raw h1 h2 h3
    have h2' : ¬ (raw.take 4 ≠ MAGIC) := fun hc => hc h2
    rw [read]
    simp only [HEADER_SIZE, if_neg h1, exc_pure_bind, if_neg h2', if_pos h3,
      throw_bind]
  · intro raw h1 h2 h3 h4
    have h2' : ¬ (raw.take 4 ≠ MAGIC) := fun hc => hc h2
    have h3' : ¬ (le32dec (raw.drop 4) ≠ VERSION) := fun hc => hc h3
    rw [read]
    simp only [HEADER_SIZE, if_neg h1, exc_pure_bind, if_neg h2', if_neg h3',
      if_pos h4, throw_bind]
  · intro raw j h1 h2 h3 h4 hdec h5 h6
    have h2' : ¬ (raw.take 4 ≠ MAGIC) := fun hc => hc h2
    have h3' : ¬ (le32dec (raw.drop 4) ≠ VERSION) := fun hc => hc h3
    rw [read]
    simp only [HEADER_SIZE, if_neg h1, exc_pure_bind, if_neg h2', if_neg h3',
      if_neg h4, hdec, ok_bind, if_neg h5, if_pos h6, throw_bind]

theorem nsfp_C8_witness :
    read [9] = .error (.truncated "header" 12 1) ∧
    read [66, 65, 65, 68, 1, 0, 0, 0, 0, 0, 0, 0] =
      .error (.invalidMagic [66, 65, 65, 68]) ∧
    read [78, 83, 70, 78, 2, 0, 0, 0, 0, 0, 0, 0] =
      .error (.unsupportedVersion 2) ∧
    read [78, 83, 70, 78, 1, 0, 0, 0, 5, 0, 0, 0] =
      .error (.truncated "json" 17 12) ∧
    read [78, 83, 70, 78, 1, 0, 0, 0, 2, 0, 0, 0, 123, 125, 9, 0, 0, 0] =
      .error (.truncated "binary" 27 18) :=
  ⟨nsfp_C8.1 [9] (by decide),
    nsfp_C8.2.1 _ (by decide) (by decide),
    nsfp_C8.2.2.1 _ (by decide) (by decide) (by decide),
    nsfp_C8.2.2.2.1 _ (by decide) (by decide) (by decide) (by decide),
    nsfp_C8.2.2.2.2.1 _ (.jobj .nil) (by decide) (by decide) (by decide)
      (by decide) (by rfl) (by decide) (by decide)⟩

/-- The bytes used to exhibit C10's missing bounds check: the packed form
of the single square frame `(500, 12, 2)`. -/
def C10chunk : List Nat := [244, 1, 12, 2]

def C10channel : ChannelData := ⟨0, "square", "Sq", [], none, none⟩

/-- A channel dict whose `raw_data_ref` claims 100 bytes where only 4
exist. -/
def C10dictOver : Json :=
  channel_to_dict C10channel (some ⟨0, 100, 4, "square"⟩)

/-- A channel dict whose 3-byte range is not a multiple of the 4-byte
frame size. -/
def C10dictMis : Json :=
  channel_to_dict C10channel (some ⟨0, 3, 4, "square"⟩)

/-- C10: the read path performs no bounds or alignment validation on
`raw_data_ref`.  A byte range extending past the end of the binary chunk is
silently clamped by Python slicing (the out-of-range ref below reads back
successfully with the frames of the whole chunk, with no `Truncated`
error), and any slice whose length is not a multiple of the struct's frame
size makes `unpack_frames` fail on the final partial chunk with a bare
`struct.error`, which is not one of the closed `NotationError` taxonomy. -/
theorem nsfp_C10 :
    (∀ (t : String) (fmt : List FType) (data : List Nat),
      STRUCT_FORMATS t = some fmt → data.length % fmtSize fmt ≠ 0 →
      unpack_frames t data = .error .structError ∧
      ReadErr.structError.inClosedTaxonomy = false) ∧
    pySlice C10chunk 0 (0 + 100) = C10chunk ∧
    recover_channel C10chunk C10dictOver =
      .ok { C10channel with
        raw_data_ref := some ⟨0, 100, 4, "square"⟩,
        raw_frames := some [[500, 12, 2]] } ∧
    recover_channel C10chunk C10dictMis = .error .structError := by
  refine ⟨?_, by decide, by rfl, by rfl⟩
  intro t fmt data ht hmod
  refine ⟨?_, rfl⟩
  rw [unpack_frames.eq_def, ht]
  exact unpackLoop_mod_ne fmt (fmtSize fmt) (fmtSize_pos t fmt ht) data hmod

theorem nsfp_C10_witness :
    STRUCT_FORMATS "square" = some [FType.u16, FType.u8, FType.u8] ∧
    [1, 2, 3, 4, 5].length % fmtSize [FType.u16, FType.u8, FType.u8] ≠ 0 ∧
    unpack_frames "square" [1, 2, 3, 4, 5] = .error .structError ∧
    ReadErr.structError.inClosedTaxonomy = false :=
  ⟨rfl, by decide,
    (nsfp_C10.1 "square" [FType.u16, FType.u8, FType.u8] [1, 2, 3, 4, 5]
      rfl (by decide)).1,
    (nsfp_C10.1 "square" [FType.u16, FType.u8, FType.u8] [1, 2, 3, 4, 5]
      rfl (by decide)).2⟩

/-- C6 (amended): the reader does not validate `channel_type` at all — the
code defines no `UnknownChannelType` error, and a channel dict whose
`channel_type` lies outside the §6.2 table (no struct format) parses
successfully, coming back with its tag intact and no frames.  (The original
claim that `read` fails with `UnknownChannelType` is refuted by
`nsfp_C6_counterexample`.) -/
theorem nsfp_C6 (ch : ChannelData) (binary : List Nat)
    (_hsf : STRUCT_FORMATS ch.channel_type = none)
    (_href : ch.raw_data_ref = none) :
    recover_channel binary (channel_to_dict ch none) =
      .ok { ch with raw_data_ref := none, raw_frames := none } :=
  recover_channel_noref binary _ _ (channel_from_to ch none) rfl

def C6channel : ChannelData := ⟨7, "bogus", "B", [], none, none⟩

theorem nsfp_C6_witness :
    STRUCT_FORMATS C6channel.channel_type = none ∧
    C6channel.raw_data_ref = none ∧
    recover_channel [1, 2] (channel_to_dict C6channel none) =
      .ok { C6channel with raw_data_ref := none, raw_frames := none } :=
  ⟨rfl, rfl, nsfp_C6 C6channel [1, 2] rfl rfl⟩

/-- A full container whose only channel carries the unknown tag
`"bogus"`. -/
def C6file : NotationFile :=
  ⟨⟨"", "", "", "ntsc", 60, 0, some []⟩,
    [⟨0, "S", 1, 256, [⟨3, "bogus", "B", [], none, none⟩]⟩]⟩

set_option maxRecDepth 100000 in
/-- Refutation of C6 as stated: `read` on a container whose JSON contains
the out-of-table `channel_type = "bogus"` returns successfully (with the
tag preserved) instead of failing with any error. -/
theorem nsfp_C6_counterexample :
    ∃ raw, write C6file = some raw ∧
      read raw = .ok (readback C6file [[none]]) ∧
      ((readback C6file [[none]]).songs.map fun s =>
        s.channels.map fun c => c.channel_type) = [["bogus"]] ∧
      STRUCT_FORMATS "bogus" = none :=
  ⟨(write C6file).getD [], by rfl, by rfl, by rfl, rfl⟩

/-- C7 (amended): the *write* path is what recomputes `expansion_chips`:
`to_json_dict` always emits the field, decoding it from `expansion` when
the in-memory value is `None`, so a file produced by `write` from such
data reads back with `expansion_chips = some (expansion_chip_list
expansion)`.  The read side performs no recomputation: a JSON metadata
object that truly omits the field reads back as `None`
(`nsfp_C7_counterexample`). -/
theorem nsfp_C7 (x : NotationFile) (raw : List Nat)
    (layout : List (List (Option RawDataRef))) (blob : List Nat)
    (hl : compute_binary_layout x = some (layout, blob))
    (hw : write x = some raw)
    (hnone : x.metadata.expansion_chips = none) :
    ∃ y, read raw = .ok y ∧
      y.metadata.expansion_chips =
        some (expansion_chip_list x.metadata.expansion) := by
  refine ⟨readback x layout, read_write x raw layout blob hl hw, ?_⟩
  simp only [readback, chipsOnWrite.eq_def, hnone]

/-- The chips-omitted file of the claim's example: `expansion = 0b000101`,
`expansion_chips = None`. -/
def C7file : NotationFile := ⟨⟨"t", "a", "c", "ntsc", 60, 5, none⟩, []⟩

set_option maxRecDepth 100000 in
theorem nsfp_C7_witness :
    expansion_chip_list 5 = ["VRC6", "FDS"] ∧
    C7file.metadata.expansion_chips = none ∧
    ∃ y, read ((write C7file).getD []) = .ok y ∧
      y.metadata.expansion_chips =
        some (expansion_chip_list C7file.metadata.expansion) :=
  ⟨by rfl, rfl, nsfp_C7 C7file ((write C7file).getD []) _ _ (by rfl) (by rfl) rfl⟩

/-- A raw container whose JSON is `{"metadata":{"expansion":5}}` — the
`expansion_chips` field is genuinely absent — followed by an empty binary
chunk. -/
def C7json : Json :=
  .jobj (.cons "metadata" (.jobj (.cons "expansion" (.jint 5) .nil)) .nil)

def C7raw : List Nat :=
  MAGIC ++ le32enc VERSION ++ le32enc (jsonEncode C7json).length ++
    jsonEncode C7json ++ le32enc 0

set_option maxRecDepth 100000 in
/-- Refutation of C7 as stated: reading a container whose JSON metadata
omits `expansion_chips` yields `expansion_chips = none` — the reader does
not decode `expansion`, so the claimed `["VRC6", "FDS"]` read-back for
`expansion = 0b000101` does not happen when the field is absent from the
JSON. -/
theorem nsfp_C7_counterexample :
    read C7raw = .ok ⟨⟨"", "", "", "ntsc", 60, 5, none⟩, []⟩ ∧
    (⟨⟨"", "", "", "ntsc", 60, 5, none⟩, []⟩ : NotationFile).metadata.expansion_chips
      ≠ some (expansion_chip_list 5) :=
  ⟨by rfl, by decide⟩

/-! ## `extract.py`: the trigger/release state machine

The per-channel state (`ChannelState`), the nearest-note search, and the
four `_update_*` handlers dispatched by `_update_channel`, translated
field for field.  `NSF_LIB` snapshots are abstracted as the tuple of ints
the C library returned for one frame (`raw` in the source); the
frame-by-frame loop of `extract_notation` over one channel becomes
`runChannel`. -/

def STOPPED : Int := 0

def TRIGGERED : Int := 1

def RELEASED : Int := 2

/-- `ChannelState.__init__` defaults. -/
structure ChannelState where
  period : Int := -1
  note : Int := 0
  pitch : Int := 0
  volume : Int := 0
  octave : Int := -1
  state : Int := STOPPED
  fds_mod_depth : Int := 0
  fds_mod_speed : Int := 0
  s5b_env_freq : Int := 0
  fm_trigger : Bool := false
  fm_sustain : Bool := false
  instrument : Option Int := none
  dmc_active : Bool := false
  dmc_sample_len : Int := 0
deriving DecidableEq, Repr

def initialChannelState : ChannelState := {}

/-- Two's-complement XOR on Python ints (`Int.negSucc n` is `~n`). -/
def intXor : Int → Int → Int
  | .ofNat m, .ofNat n => .ofNat (m ^^^ n)
  | .ofNat m, .negSucc n => .negSucc (m ^^^ n)
  | .negSucc m, .ofNat n => .negSucc (m ^^^ n)
  | .negSucc m, .negSucc n => .ofNat (m ^^^ n)

/-- The index scan of `get_best_matching_note` (`for i in range(2, len)`),
tracking the best index and its distance. -/
def gbmnAux (period : Int) : List Int → Nat → Nat → Nat → Nat
  | [], _, best, _ => best
  | t :: ts, i, best, md =>
    if (t - period).natAbs < md then gbmnAux period ts (i + 1) i ((t - period).natAbs)
    else gbmnAux period ts (i + 1) best md

/-- `get_best_matching_note(period, note_table)`: linear scan over indices
1..len-1, tie-break on the lowest index, `fine_pitch = period -
table[best]`.  `none` models the `IndexError` on a table without index 1
(never hit: every generated table has 97 entries). -/
def get_best_matching_note (period : Int) (note_table : List Int) :
    Option (Int × Int) :=
  match note_table with
  | _ :: t1 :: rest =>
    let best := gbmnAux period rest 2 1 ((t1 - period).natAbs)
    (note_table.get? best).map fun tb => ((best : Int), period - tb)
  | _ => none

/-- `_note_to_octave`. -/
def note_to_octave (note : Int) : Int :=
  if note < 1 then 0 else (note - 1) / 12

/-- `_emit_note`: append one event (the `octave` field is derived). -/
def emit_note (frame : Int) (event : String) (note pitch volume duty : Int)
    (instrument : Option Int) (notes : List NoteEvent) : List NoteEvent :=
  notes ++ [⟨frame, event, note, note_to_octave note, pitch, volume, duty,
    instrument⟩]

/-- `_update_generic`: trigger detection for square, triangle, VRC6, FDS,
N163, S5B and MMC5 square, parametrised by the chip's `invalid_period`
sentinel. -/
def update_generic (frame period volume duty : Int) (cs : ChannelState)
    (notes : List NoteEvent) (note_table : List Int) (invalid_period : Int) :
    Option (ChannelState × List NoteEvent) :=
  if volume ≠ 0 ∧ period ≠ invalid_period then do
    let (note, pitch) ← get_best_matching_note period note_table
    if cs.state ≠ TRIGGERED ∨ note ≠ cs.note then
      some ({ cs with
          state := TRIGGERED, note := note, pitch := pitch,
          volume := volume, period := period },
        emit_note frame "trigger" note pitch volume duty cs.instrument notes)
    else if volume ≠ cs.volume ∨ period ≠ cs.period then
      some ({ cs with volume := volume, pitch := pitch, period := period },
        notes)
    else some (cs, notes)
  else
    if cs.state = TRIGGERED then
      some ({ cs with state := STOPPED },
        emit_note frame "stop" cs.note cs.pitch 0 duty cs.instrument notes)
    else some (cs, notes)

/-- `_update_noise`: `note = (period_idx ^ 0x0F) + 32`. -/
def update_noise (frame period_idx volume mode : Int) (cs : ChannelState)
    (notes : List NoteEvent) : ChannelState × List NoteEvent :=
  if volume ≠ 0 then
    let note := intXor period_idx 15 + 32
    if cs.state ≠ TRIGGERED ∨ note ≠ cs.note then
      ({ cs with
          state := TRIGGERED, note := note, pitch := 0,
          volume := volume, period := period_idx },
        emit_note frame "trigger" note 0 volume mode cs.instrument notes)
    else if volume ≠ cs.volume then ({ cs with volume := volume }, notes)
    else (cs, notes)
  else
    if cs.state = TRIGGERED then
      ({ cs with state := STOPPED },
        emit_note frame "stop" cs.note 0 0 mode cs.instrument notes)
    else (cs, notes)

/-- `_update_dpcm`: trigger on new sample start, stop when inactive; the
trailing `cs.dmc_active` / `cs.dmc_sample_len` writes always happen. -/
def update_dpcm (frame sample_len sample_addr pitch _loopF _counter active : Int)
    (cs : ChannelState) (notes : List NoteEvent) :
    ChannelState × List NoteEvent :=
  let dmc_active := active ≠ 0
  let r :=
    if active ≠ 0 ∧ sample_len > 0 then
      if cs.state ≠ TRIGGERED ∨ sample_addr ≠ cs.period then
        let note := max 1 (min 96 (Int.fdiv (sample_addr - 49152) 64 + 1))
        ({ cs with
            state := TRIGGERED, period := sample_addr, note := note,
            pitch := pitch, volume := 15 },
          emit_note frame "trigger" note pitch 15 0 cs.instrument notes)
      else (cs, notes)
    else if ¬ active ≠ 0 ∧ cs.state = TRIGGERED then
      ({ cs with state := STOPPED },
        emit_note frame "stop" cs.note cs.pitch 0 0 cs.instrument notes)
    else (cs, notes)
  ({ r.1 with
      dmc_active := decide dmc_active, dmc_sample_len := sample_len },
    r.2)

/-- `_update_fm` (VRC7): trigger/sustain flags from hardware. -/
def update_fm (frame period volume patch octave : Int)
    (trigger sustain _trig_change : Bool) (cs0 : ChannelState)
    (notes : List NoteEvent) (note_table : List Int) :
    Option (ChannelState × List NoteEvent) :=
  let prev_trigger := cs0.fm_trigger
  let cs := { cs0 with fm_trigger := trigger, fm_sustain := sustain }
  if ¬ prev_trigger = true ∧ trigger = true then do
    let full_period := if octave > 0 then period * (2 ^ octave.toNat) else period
    let (note, pitch) ← get_best_matching_note full_period note_table
    some ({ cs with
        state := TRIGGERED, note := note, pitch := pitch,
        volume := volume, octave := octave, period := period,
        instrument := some patch },
      emit_note frame "trigger" note pitch volume 0 (some patch) notes)
  else if prev_trigger = true ∧ ¬ trigger = true ∧ sustain = true then
    some ({ cs with state := RELEASED },
      emit_note frame "release" cs.note cs.pitch cs.volume 0 cs.instrument notes)
  else if ¬ trigger = true ∧ ¬ sustain = true then
    if cs.state = TRIGGERED ∨ cs.state = RELEASED then
      some ({ cs with state := STOPPED },
        emit_note frame "stop" cs.note cs.pitch 0 0 cs.instrument notes)
    else some (cs, notes)
  else if trigger = true ∧ cs.state = TRIGGERED then
    if period ≠ cs.period ∨ some patch ≠ cs.instrument then do
      let full_period := if octave > 0 then period * (2 ^ octave.toNat) else period
      let (note, pitch) ← get_best_matching_note full_period note_table
      some ({ cs with
          note := note, pitch := pitch, period := period,
          instrument := some patch, volume := volume },
        emit_note frame "trigger" note pitch volume 0 (some patch) notes)
    else some (cs, notes)
  else some (cs, notes)

/-- The `note_tables` dict: the five named tables plus the eight
`n163_0` … `n163_7` variants. -/
structure NoteTables where
  ntsc : List Int
  pal : List Int
  vrc6_saw : List Int
  fds : List Int
  vrc7 : List Int
  n163 : List (List Int)
deriving Repr

/-- `_update_channel`: dispatch on the channel type, destructuring the raw
snapshot tuple (`none` models a `ValueError` on an arity mismatch);
`mmc5_dpcm` — and, vacuously, a tag outside `CHANNEL_INFO` — is a no-op. -/
def update_channel (ch_type : String) (frame : Int) (raw : List Int)
    (cs : ChannelState) (notes : List NoteEvent) (tables : NoteTables)
    (is_pal : Bool) : Option (ChannelState × List NoteEvent) :=
  if ch_type = "square" ∨ ch_type = "mmc5_square" then
    match raw with
    | [period, volume, duty] =>
      update_generic frame period volume duty cs notes
        (if is_pal then tables.pal else tables.ntsc) 0
    | _ => none
  else if ch_type = "triangle" then
    match raw with
    | [period, volume] =>
      update_generic frame period volume 0 cs notes
        (if is_pal then tables.pal else tables.ntsc) 0
    | _ => none
  else if ch_type = "noise" then
    match raw with
    | [period_idx, volume, mode] =>
      some (update_noise frame period_idx volume mode cs notes)
    | _ => none
  else if ch_type = "dpcm" then
    match raw with
    | [sample_len, sample_addr, pitch, loopF, counter, active] =>
      some (update_dpcm frame sample_len sample_addr pitch loopF counter
        active cs notes)
    | _ => none
  else if ch_type = "vrc6_square" then
    match raw with
    | [period, volume, duty] =>
      update_generic frame period volume duty cs notes
        (if is_pal then tables.pal else tables.ntsc) 0
    | _ => none
  else if ch_type = "vrc6_saw" then
    match raw with
    | [period, volume] =>
      update_generic frame period volume 0 cs notes tables.vrc6_saw 0
    | _ => none
  else if ch_type = "vrc7_fm" then
    match raw with
    | [period, vol, patch, octave, trigger, sustain, trig_change] =>
      update_fm frame period vol patch octave (trigger ≠ 0) (sustain ≠ 0)
        (trig_change ≠ 0) cs notes tables.vrc7
    | _ => none
  else if ch_type = "fds" then
    match raw with
    | [period, vol, _master_vol, mod_speed, mod_depth, _pad] => do
      let r ← update_generic frame period vol 0 cs notes tables.fds 0
      some ({ r.1 with
          fds_mod_depth := mod_depth, fds_mod_speed := mod_speed },
        r.2)
    | _ => none
  else if ch_type = "n163_wave" then
    match raw with
    | [period, vol, _wave_pos, _wave_size, num_ch] => do
      let tbl ← tables.n163.get? (max 0 (min 7 (num_ch - 1))).toNat
      update_generic frame period vol 0 cs notes tbl 0
    | _ => none
  else if ch_type = "s5b_square" then
    match raw with
    | [period, vol, _mixer, _noise_freq, _env_en, env_freq, _env_shape,
        _env_trig] => do
      let r ← update_generic frame period vol 0 cs notes
        (if is_pal then tables.pal else tables.ntsc) (-1)
      some ({ r.1 with s5b_env_freq := env_freq }, r.2)
    | _ => none
  else some (cs, notes)

/-- One channel's slice of `extract_notation`'s frame loop: fold
`_update_channel` over the per-frame snapshots, incrementing `frame`. -/
def runChannel (ch_type : String) (tables : NoteTables) (is_pal : Bool) :
    List (List Int) → Int → ChannelState → List NoteEvent →
    Option (ChannelState × List NoteEvent)
  | [], _, cs, notes => some (cs, notes)
  | raw :: rest, frame, cs, notes => do
    let r ← update_channel ch_type frame raw cs notes tables is_pal
    runChannel ch_type tables is_pal rest (frame + 1) r.1 r.2

/-- `extract_notation`'s per-channel result: fresh state, empty note list,
frames numbered from 0. -/
def extract_channel_notes (ch_type : String) (tables : NoteTables)
    (is_pal : Bool) (snaps : List (List Int)) :
    Option (ChannelState × List NoteEvent) :=
  runChannel ch_type tables is_pal snaps 0 initialChannelState []

/-- A small strictly-decreasing period table standing in for the NTSC
table (index 0 unused). -/
def C2table : List Int := [0, 2000, 1000, 500]

def C2tables : NoteTables := ⟨C2table, C2table, C2table, C2table, C2table, []⟩

/-- C2: the S5B sentinel handling diverges from the spec.  `_update_channel`
passes `invalid_period = -1` only, with a comment acknowledging that the C
library returns the silenced marker as unsigned `0xFFFF` — so a snapshot
with `period = 0xFFFF = 65535` and nonzero volume is treated as triggered
and emits a spurious trigger event, while the claimed equivalent `-1`
snapshot is correctly treated as silent and emits nothing. -/
theorem nsfp_C2 :
    (∃ cs2 e, update_channel "s5b_square" 0 [65535, 5, 0, 0, 0, 0, 0, 0]
        initialChannelState [] C2tables false = some (cs2, [e]) ∧
      e.event = "trigger" ∧ cs2.state = TRIGGERED) ∧
    update_channel "s5b_square" 0 [-1, 5, 0, 0, 0, 0, 0, 0]
        initialChannelState [] C2tables false =
      some (initialChannelState, []) :=
  ⟨⟨_, _, rfl, rfl, rfl⟩, rfl⟩

/-- C4: for every noise snapshot with nonzero volume and the channel not
already in the TRIGGERED state, the emitted note is
`(period_idx XOR 0x0F) + 32` with fine pitch 0; on `0 ≤ period_idx ≤ 15`
the formula equals `47 - period_idx`, so indices 15 down to 0 give notes
32 up to 47 — in particular 0 ↦ 47, 15 ↦ 32, 7 ↦ 40. -/
theorem nsfp_C4 :
    (∀ (frame period_idx volume mode : Int) (cs : ChannelState)
      (notes : List NoteEvent), volume ≠ 0 → cs.state ≠ TRIGGERED →
      update_noise frame period_idx volume mode cs notes =
        ({ cs with
            state := TRIGGERED, note := intXor period_idx 15 + 32,
            pitch := 0, volume := volume, period := period_idx },
          emit_note frame "trigger" (intXor period_idx 15 + 32) 0 volume mode
            cs.instrument notes)) ∧
    (∀ p : Int, 0 ≤ p → p ≤ 15 → intXor p 15 + 32 = 47 - p) ∧
    intXor 0 15 + 32 = 47 ∧ intXor 15 15 + 32 = 32 ∧ intXor 7 15 + 32 = 40 := by
  refine ⟨?_, ?_, by decide, by decide, by decide⟩
  · intro frame p vol mode cs notes hvol hstate
    simp only [update_noise]
    rw [if_pos hvol, if_pos (Or.inl hstate)]
  · intro p h0 h15
    interval_cases p <;> decide

theorem nsfp_C4_witness :
    update_noise 3 7 9 1 initialChannelState [] =
      ({ initialChannelState with
          state := TRIGGERED, note := 40, pitch := 0,
          volume := 9, period := 7 },
        emit_note 3 "trigger" 40 0 9 1 none []) ∧
    intXor 5 15 + 32 = 47 - 5 :=
  ⟨by
      rw [nsfp_C4.1 3 7 9 1 initialChannelState [] (by decide) (by decide)]
      decide,
    nsfp_C4.2.1 5 (by decide) (by decide)⟩

/-! ### Invariants of the per-frame update (for C5) -/

/-- The channel state's `state` field is witnessed by the last emitted
event: TRIGGERED after a trigger, RELEASED after a release. -/
def stateMatches (cs : ChannelState) (notes : List NoteEvent) : Prop :=
  (cs.state = TRIGGERED → ∃ e, notes.getLast? = some e ∧ e.event = "trigger") ∧
  (cs.state = RELEASED → ∃ e, notes.getLast? = some e ∧ e.event = "release")

/-- What one `_update_*` call can do to the event list: nothing (state
field unchanged), or append exactly one event stamped with the current
frame — a trigger (state becomes TRIGGERED), a release (state becomes
RELEASED), or a stop (state becomes STOPPED, and the previously emitted
event was a trigger or a release). -/
def stepSpec (frame : Int) (cs : ChannelState) (notes : List NoteEvent)
    (cs2 : ChannelState) (notes2 : List NoteEvent) : Prop :=
  (notes2 = notes ∧ cs2.state = cs.state) ∨
  (∃ e, notes2 = notes ++ [e] ∧ e.frame = frame ∧
    ((e.event = "trigger" ∧ cs2.state = TRIGGERED) ∨
     (e.event = "release" ∧ cs2.state = RELEASED) ∨
     (e.event = "stop" ∧ cs2.state = STOPPED ∧
       ∃ p, notes.getLast? = some p ∧
         (p.event = "trigger" ∨ p.event = "release"))))

theorem update_generic_spec (frame period volume duty : Int)
    (cs : ChannelState) (notes : List NoteEvent) (tbl : List Int) (inv : Int)
    (cs2 : ChannelState) (notes2 : List NoteEvent)
    (h : update_generic frame period volume duty cs notes tbl inv
      = some (cs2, notes2))
    (hst : stateMatches cs notes) :
    stepSpec frame cs notes cs2 notes2 := by
  rw [update_generic] at h
  by_cases h1 : volume ≠ 0 ∧ period ≠ inv
  · rw [if_pos h1] at h
    cases hg : get_best_matching_note period tbl with
    | none =>
      rw [hg] at h
      simp at h
    | some np =>
      obtain ⟨note, pitch⟩ := np
      rw [hg] at h
      simp only [Option.pure_def, Option.bind_eq_bind, Option.some_bind] at h
      by_cases h2 : cs.state ≠ TRIGGERED ∨ note ≠ cs.note
      · rw [if_pos h2] at h
        simp only [Option.some.injEq, Prod.mk.injEq] at h
        obtain ⟨hcs, hnotes⟩ := h
        refine Or.inr ⟨_, hnotes.symm, rfl, Or.inl ⟨rfl, ?_⟩⟩
        rw [← hcs]
      · rw [if_neg h2] at h
        by_cases h3 : volume ≠ cs.volume ∨ period ≠ cs.period
        · rw [if_pos h3] at h
          simp only [Option.some.injEq, Prod.mk.injEq] at h
          obtain ⟨hcs, hnotes⟩ := h
          exact Or.inl ⟨hnotes.symm, by rw [← hcs]⟩
        · rw [if_neg h3] at h
          simp only [Option.some.injEq, Prod.mk.injEq] at h
          obtain ⟨hcs, hnotes⟩ := h
          exact Or.inl ⟨hnotes.symm, by rw [← hcs]⟩
  · rw [if_neg h1] at h
    by_cases h2 : cs.state = TRIGGERED
    · rw [if_pos h2] at h
      simp only [Option.some.injEq, Prod.mk.injEq] at h
      obtain ⟨hcs, hnotes⟩ := h
      obtain ⟨p, hp, hpe⟩ := hst.1 h2
      refine Or.inr ⟨_, hnotes.symm, rfl,
        Or.inr (Or.inr ⟨rfl, ?_, p, hp, Or.inl hpe⟩)⟩
      rw [← hcs]
    · rw [if_neg h2] at h
      simp only [Option.some.injEq, Prod.mk.injEq] at h
      obtain ⟨hcs, hnotes⟩ := h
      exact Or.inl ⟨hnotes.symm, by rw [← hcs]⟩

theorem update_noise_spec (frame period_idx volume mode : Int)
    (cs : ChannelState) (notes : List NoteEvent)
    (cs2 : ChannelState) (notes2 : List NoteEvent)
    (h : update_noise frame period_idx volume mode cs notes = (cs2, notes2))
    (hst : stateMatches cs notes) :
    stepSpec frame cs notes cs2 notes2 := by
  simp only [update_noise] at h
  by_cases h1 : volume ≠ 0
  · rw [if_pos h1] at h
    by_cases h2 : cs.state ≠ TRIGGERED ∨ intXor period_idx 15 + 32 ≠ cs.note
    · rw [if_pos h2] at h
      simp only [Prod.mk.injEq] at h
      obtain ⟨hcs, hnotes⟩ := h
      refine Or.inr ⟨_, hnotes.symm, rfl, Or.inl ⟨rfl, ?_⟩⟩
      rw [← hcs]
    · rw [if_neg h2] at h
      by_cases h3 : volume ≠ cs.volume
      · rw [if_pos h3] at h
        simp only [Prod.mk.injEq] at h
        obtain ⟨hcs, hnotes⟩ := h
        exact Or.inl ⟨hnotes.symm, by rw [← hcs]⟩
      · rw [if_neg h3] at h
        simp only [Prod.mk.injEq] at h
        obtain ⟨hcs, hnotes⟩ := h
        exact Or.inl ⟨hnotes.symm, by rw [← hcs]⟩
  · rw [if_neg h1] at h
    by_cases h2 : cs.state = TRIGGERED
    · rw [if_pos h2] at h
      simp only [Prod.mk.injEq] at h
      obtain ⟨hcs, hnotes⟩ := h
      obtain ⟨p, hp, hpe⟩ := hst.1 h2
      refine Or.inr ⟨_, hnotes.symm, rfl,
        Or.inr (Or.inr ⟨rfl, ?_, p, hp, Or.inl hpe⟩)⟩
      rw [← hcs]
    · rw [if_neg h2] at h
      simp only [Prod.mk.injEq] at h
      obtain ⟨hcs, hnotes⟩ := h
      exact Or.inl ⟨hnotes.symm, by rw [← hcs]⟩

theorem update_dpcm_spec (frame sample_len sample_addr pitch loopF counter
      active : Int) (cs : ChannelState) (notes : List NoteEvent)
    (cs2 : ChannelState) (notes2 : List NoteEvent)
    (h : update_dpcm frame sample_len sample_addr pitch loopF counter active
      cs notes = (cs2, notes2))
    (hst : stateMatches cs notes) :
    stepSpec frame cs notes cs2 notes2 := by
  simp only [update_dpcm] at h
  by_cases h1 : active ≠ 0 ∧ sample_len > 0
  · rw [if_pos h1] at h
    by_cases h2 : cs.state ≠ TRIGGERED ∨ sample_addr ≠ cs.period
    · rw [if_pos h2] at h
      simp only [Prod.mk.injEq] at h
      obtain ⟨hcs, hnotes⟩ := h
      refine Or.inr ⟨_, hnotes.symm, rfl, Or.inl ⟨rfl, ?_⟩⟩
      rw [← hcs]
    · rw [if_neg h2] at h
      simp only [Prod.mk.injEq] at h
      obtain ⟨hcs, hnotes⟩ := h
      exact Or.inl ⟨hnotes.symm, by rw [← hcs]⟩
  · rw [if_neg h1] at h
    by_cases h3 : ¬ active ≠ 0 ∧ cs.state = TRIGGERED
    · rw [if_pos h3] at h
      simp only [Prod.mk.injEq] at h
      obtain ⟨hcs, hnotes⟩ := h
      obtain ⟨p, hp, hpe⟩ := hst.1 h3.2
      refine Or.inr ⟨_, hnotes.symm, rfl,
        Or.inr (Or.inr ⟨rfl, ?_, p, hp, Or.inl hpe⟩)⟩
      rw [← hcs]
    · rw [if_neg h3] at h
      simp only [Prod.mk.injEq] at h
      obtain ⟨hcs, hnotes⟩ := h
      exact Or.inl ⟨hnotes.symm, by rw [← hcs]⟩

theorem update_fm_spec (frame period volume patch octave : Int)
    (trigger sustain trig_change : Bool) (cs : ChannelState)
    (notes : List NoteEvent) (tbl : List Int)
    (cs2 : ChannelState) (notes2 : List NoteEvent)
    (h : update_fm frame period volume patch octave trigger sustain
      trig_change cs notes tbl = some (cs2, notes2))
    (hst : stateMatches cs notes) :
    stepSpec frame cs notes cs2 notes2 := by
  simp only [update_fm] at h
  by_cases h1 : ¬ cs.fm_trigger = true ∧ trigger = true
  · rw [if_pos h1] at h
    cases hg : get_best_matching_note
        (if octave > 0 then period * (2 ^ octave.toNat) else period) tbl with
    | none =>
      rw [hg] at h
      simp at h
    | some np =>
      obtain ⟨note, pitch⟩ := np
      rw [hg] at h
      simp only [Option.pure_def, Option.bind_eq_bind, Option.some_bind,
        Option.some.injEq, Prod.mk.injEq] at h
      obtain ⟨hcs, hnotes⟩ := h
      refine Or.inr ⟨_, hnotes.symm, rfl, Or.inl ⟨rfl, ?_⟩⟩
      rw [← hcs]
  · rw [if_neg h1] at h
    by_cases h2 : cs.fm_trigger = true ∧ ¬ trigger = true ∧ sustain = true
    · rw [if_pos h2] at h
      simp only [Option.some.injEq, Prod.mk.injEq] at h
      obtain ⟨hcs, hnotes⟩ := h
      refine Or.inr ⟨_, hnotes.symm, rfl, Or.inr (Or.inl ⟨rfl, ?_⟩)⟩
      rw [← hcs]
    · rw [if_neg h2] at h
      by_cases h3 : ¬ trigger = true ∧ ¬ sustain = true
      · rw [if_pos h3] at h
        by_cases h4 : cs.state = TRIGGERED ∨ cs.state = RELEASED
        · rw [if_pos h4] at h
          simp only [Option.some.injEq, Prod.mk.injEq] at h
          obtain ⟨hcs, hnotes⟩ := h
          have hp : ∃ p, notes.getLast? = some p ∧
              (p.event = "trigger" ∨ p.event = "release") := by
            rcases h4 with h4 | h4
            · obtain ⟨p, hp, hpe⟩ := hst.1 h4
              exact ⟨p, hp, Or.inl hpe⟩
            · obtain ⟨p, hp, hpe⟩ := hst.2 h4
              exact ⟨p, hp, Or.inr hpe⟩
          refine Or.inr ⟨_, hnotes.symm, rfl, Or.inr (Or.inr ⟨rfl, ?_, hp⟩)⟩
          rw [← hcs]
        · rw [if_neg h4] at h
          simp only [Option.some.injEq, Prod.mk.injEq] at h
          obtain ⟨hcs, hnotes⟩ := h
          exact Or.inl ⟨hnotes.symm, by rw [← hcs]⟩
      · rw [if_neg h3] at h
        by_cases h4 : trigger = true ∧ cs.state = TRIGGERED
        · rw [if_pos h4] at h
          by_cases h5 : period ≠ cs.period ∨ some patch ≠ cs.instrument
          · rw [if_pos h5] at h
            cases hg : get_best_matching_note
                (if octave > 0 then period * (2 ^ octave.toNat) else period)
                tbl with
            | none =>
              rw [hg] at h
              simp at h
            | some np =>
              obtain ⟨note, pitch⟩ := np
              rw [hg] at h
              simp only [Option.pure_def, Option.bind_eq_bind,
                Option.some_bind, Option.some.injEq, Prod.mk.injEq] at h
              obtain ⟨hcs, hnotes⟩ := h
              refine Or.inr ⟨_, hnotes.symm, rfl, Or.inl ⟨rfl, ?_⟩⟩
              rw [← hcs, h4.2]
          · rw [if_neg h5] at h
            simp only [Option.some.injEq, Prod.mk.injEq] at h
            obtain ⟨hcs, hnotes⟩ := h
            exact Or.inl ⟨hnotes.symm, by rw [← hcs]⟩
        · rw [if_neg h4] at h
          simp only [Option.some.injEq, Prod.mk.injEq] at h
          obtain ⟨hcs, hnotes⟩ := h
          exact Or.inl ⟨hnotes.symm, by rw [← hcs]⟩

theorem stepSpec_state_congr (frame : Int) (cs : ChannelState)
    (notes : List NoteEvent) (cs2 cs3 : ChannelState) (notes2 : List NoteEvent)
    (h : stepSpec frame cs notes cs2 notes2) (hs : cs3.state = cs2.state) :
    stepSpec frame cs notes cs3 notes2 := by
  rcases h with ⟨ha, hb⟩ | ⟨e, he, hf, hc⟩
  · exact Or.inl ⟨ha, by rw [hs, hb]⟩
  · refine Or.inr ⟨e, he, hf, ?_⟩
    rcases hc with ⟨a, b⟩ | ⟨a, b⟩ | ⟨a, b, c⟩
    · exact Or.inl ⟨a, by rw [hs, b]⟩
    · exact Or.inr (Or.inl ⟨a, by rw [hs, b]⟩)
    · exact Or.inr (Or.inr ⟨a, by rw [hs, b], c⟩)

/-- Every dispatch branch of `_update_channel` obeys `stepSpec`. -/
theorem update_channel_spec (ct : String) (frame : Int) (raw : List Int)
    (cs : ChannelState) (notes : List NoteEvent) (tables : NoteTables)
    (is_pal : Bool) (cs2 : ChannelState) (notes2 : List NoteEvent)
    (h : update_channel ct frame raw cs notes tables is_pal
      = some (cs2, notes2))
    (hst : stateMatches cs notes) :
    stepSpec frame cs notes cs2 notes2 := by
  rw [update_channel.eq_def] at h
  by_cases hc0 : ct = "square" ∨ ct = "mmc5_square"
  · rw [if_pos hc0] at h
    rcases raw with _ | ⟨a, _ | ⟨b, _ | ⟨c, _ | ⟨d, rest⟩⟩⟩⟩ <;>
        first
          | (simp at h; done)
          | skip
    exact update_generic_spec _ _ _ _ _ _ _ _ _ _ h hst
  · rw [if_neg hc0] at h
    by_cases hc1 : ct = "triangle"
    · rw [if_pos hc1] at h
      rcases raw with _ | ⟨a, _ | ⟨b, _ | ⟨c, rest⟩⟩⟩ <;>
          first
            | (simp at h; done)
            | skip
      exact update_generic_spec _ _ _ _ _ _ _ _ _ _ h hst
    · rw [if_neg hc1] at h
      by_cases hc2 : ct = "noise"
      · rw [if_pos hc2] at h
        rcases raw with _ | ⟨a, _ | ⟨b, _ | ⟨c, _ | ⟨d, rest⟩⟩⟩⟩ <;>
            first
              | (simp at h; done)
              | skip
        exact update_noise_spec _ _ _ _ _ _ _ _ (Option.some.inj h) hst
      · rw [if_neg hc2] at h
        by_cases hc3 : ct = "dpcm"
        · rw [if_pos hc3] at h
          rcases raw with _ | ⟨a, _ | ⟨b, _ | ⟨c, _ | ⟨d, _ | ⟨e, _ | ⟨f, _ | ⟨g, rest⟩⟩⟩⟩⟩⟩⟩ <;>
              first
                | (simp at h; done)
                | skip
          exact update_dpcm_spec _ _ _ _ _ _ _ _ _ _ _ (Option.some.inj h) hst
        · rw [if_neg hc3] at h
          by_cases hc4 : ct = "vrc6_square"
          · rw [if_pos hc4] at h
            rcases raw with _ | ⟨a, _ | ⟨b, _ | ⟨c, _ | ⟨d, rest⟩⟩⟩⟩ <;>
                first
                  | (simp at h; done)
                  | skip
            exact update_generic_spec _ _ _ _ _ _ _ _ _ _ h hst
          · rw [if_neg hc4] at h
            by_cases hc5 : ct = "vrc6_saw"
            · rw [if_pos hc5] at h
              rcases raw with _ | ⟨a, _ | ⟨b, _ | ⟨c, rest⟩⟩⟩ <;>
                  first
                    | (simp at h; done)
                    | skip
              exact update_generic_spec _ _ _ _ _ _ _ _ _ _ h hst
            · rw [if_neg hc5] at h
              by_cases hc6 : ct = "vrc7_fm"
              · rw [if_pos hc6] at h
                rcases raw with _ | ⟨a, _ | ⟨b, _ | ⟨c, _ | ⟨d, _ | ⟨e, _ | ⟨f, _ | ⟨g, _ | ⟨k, rest⟩⟩⟩⟩⟩⟩⟩⟩ <;>
                    first
                      | (simp at h; done)
                      | skip
                exact update_fm_spec _ _ _ _ _ _ _ _ _ _ _ _ _ h hst
              · rw [if_neg hc6] at h
                by_cases hc7 : ct = "fds"
                · rw [if_pos hc7] at h
                  rcases raw with _ | ⟨a, _ | ⟨b, _ | ⟨c, _ | ⟨d, _ | ⟨e, _ | ⟨f, _ | ⟨g, rest⟩⟩⟩⟩⟩⟩⟩ <;>
                      first
                        | (simp at h; done)
                        | skip
                  replace h : (update_generic frame a b 0 cs notes tables.fds 0
                      >>= fun r =>
                        some ({ r.1 with
                          fds_mod_depth := e, fds_mod_speed := d }, r.2))
                      = some (cs2, notes2) := h
                  cases hg : update_generic frame a b 0 cs notes tables.fds 0 with
                  | none =>
                    rw [hg] at h
                    simp at h
                  | some r =>
                    obtain ⟨rcs, rnotes⟩ := r
                    rw [hg] at h
                    simp only [Option.pure_def, Option.bind_eq_bind, Option.some_bind,
                      Option.some.injEq, Prod.mk.injEq] at h
                    obtain ⟨hcs, hnotes⟩ := h
                    rw [← hnotes]
                    exact stepSpec_state_congr _ _ _ _ _ _
                      (update_generic_spec _ _ _ _ _ _ _ _ _ _ hg hst) (by rw [← hcs])
                · rw [if_neg hc7] at h
                  by_cases hc8 : ct = "n163_wave"
                  · rw [if_pos hc8] at h
                    rcases raw with _ | ⟨a, _ | ⟨b, _ | ⟨c, _ | ⟨d, _ | ⟨e, _ | ⟨f, rest⟩⟩⟩⟩⟩⟩ <;>
                        first
                          | (simp at h; done)
                          | skip
                    replace h : (tables.n163.get? (max 0 (min 7 (e - 1))).toNat
                        >>= fun tbl => update_generic frame a b 0 cs notes tbl 0)
                        = some (cs2, notes2) := h
                    cases ht : tables.n163.get? (max 0 (min 7 (e - 1))).toNat with
                    | none =>
                      rw [ht] at h
                      simp at h
                    | some tbl =>
                      rw [ht] at h
                      simp only [Option.pure_def, Option.bind_eq_bind, Option.some_bind] at h
                      exact update_generic_spec _ _ _ _ _ _ _ _ _ _ h hst
                  · rw [if_neg hc8] at h
                    by_cases hc9 : ct = "s5b_square"
                    · rw [if_pos hc9] at h
                      rcases raw with _ | ⟨a, _ | ⟨b, _ | ⟨c, _ | ⟨d, _ | ⟨e, _ | ⟨f, _ | ⟨g, _ | ⟨k, _ | ⟨m, rest⟩⟩⟩⟩⟩⟩⟩⟩⟩ <;>
                          first
                            | (simp at h; done)
                            | skip
                      replace h : (update_generic frame a b 0 cs notes
                          (if is_pal then tables.pal else tables.ntsc) (-1)
                          >>= fun r =>
                            some ({ r.1 with s5b_env_freq := f }, r.2))
                          = some (cs2, notes2) := h
                      cases hg : update_generic frame a b 0 cs notes
                          (if is_pal then tables.pal else tables.ntsc) (-1) with
                      | none =>
                        rw [hg] at h
                        simp at h
                      | some r =>
                        obtain ⟨rcs, rnotes⟩ := r
                        rw [hg] at h
                        simp only [Option.pure_def, Option.bind_eq_bind, Option.some_bind,
                          Option.some.injEq, Prod.mk.injEq] at h
                        obtain ⟨hcs, hnotes⟩ := h
                        rw [← hnotes]
                        exact stepSpec_state_congr _ _ _ _ _ _
                          (update_generic_spec _ _ _ _ _ _ _ _ _ _ hg hst) (by rw [← hcs])
                    · rw [if_neg hc9] at h
                      simp only [Option.some.injEq, Prod.mk.injEq] at h
                      obtain ⟨h1, h2⟩ := h
                      exact Or.inl ⟨h2.symm, by rw [← h1]⟩


/-- The run invariant: all emitted frames are below the counter, frames
strictly increase along the list (so events are non-decreasing and at most
one event occurs per frame), the first event is not a stop, every stop is
immediately preceded by a trigger or a release, and the state field
matches the last event. -/
def chainInv (frame : Int) (cs : ChannelState) (notes : List NoteEvent) :
    Prop :=
  (∀ e ∈ notes, e.frame < frame) ∧
  List.Chain' (fun a b => a.frame < b.frame) notes ∧
  (∀ e, notes.head? = some e → e.event ≠ "stop") ∧
  List.Chain' (fun a b => b.event = "stop" →
    a.event = "trigger" ∨ a.event = "release") notes ∧
  stateMatches cs notes

theorem step_preserves (frame : Int) (cs : ChannelState)
    (notes : List NoteEvent) (cs2 : ChannelState) (notes2 : List NoteEvent)
    (hspec : stepSpec frame cs notes cs2 notes2)
    (hinv : chainInv frame cs notes) :
    chainInv (frame + 1) cs2 notes2 := by
  obtain ⟨hfr, hchain, hhead, hstops, hstm⟩ := hinv
  rcases hspec with ⟨hn, hs⟩ | ⟨e, hn, hf, hcase⟩
  · subst hn
    refine ⟨fun x hx => by have := hfr x hx; omega, hchain, hhead, hstops,
      fun ht => hstm.1 (hs.symm.trans ht), fun ht => hstm.2 (hs.symm.trans ht)⟩
  · subst hn
    refine ⟨?_, ?_, ?_, ?_, ?_⟩
    · intro x hx
      rcases List.mem_append.mp hx with hx | hx
      · have := hfr x hx
        omega
      · have hxe : x = e := by simpa using hx
        subst hxe
        omega
    · rw [List.chain'_append]
      refine ⟨hchain, List.chain'_singleton e, ?_⟩
      intro x hxl y hyh
      have hye : e = y := by simpa using hyh
      subst hye
      obtain ⟨hne, hxg⟩ := List.mem_getLast?_eq_getLast hxl
      have hxm : x ∈ notes := hxg ▸ List.getLast_mem hne
      have := hfr x hxm
      omega
    · intro x hxh
      cases notes with
      | nil =>
        have hxe : e = x := by simpa using hxh
        subst hxe
        rcases hcase with ⟨hev, _⟩ | ⟨hev, _⟩ | ⟨_, _, p, hp, _⟩
        · rw [hev]
          decide
        · rw [hev]
          decide
        · simp at hp
      | cons n ns =>
        have hxn : n = x := by simpa using hxh
        subst hxn
        exact hhead n rfl
    · rw [List.chain'_append]
      refine ⟨hstops, List.chain'_singleton e, ?_⟩
      intro x hxl y hyh hstop
      have hye : e = y := by simpa using hyh
      subst hye
      rcases hcase with ⟨hev, _⟩ | ⟨hev, _⟩ | ⟨_, _, p, hp, hpor⟩
      · rw [hev] at hstop
        simp at hstop
      · rw [hev] at hstop
        simp at hstop
      · have hxp : x = p := by
          have : notes.getLast? = some x := hxl
          rw [hp] at this
          exact (Option.some.inj this).symm
        subst hxp
        exact hpor
    · rcases hcase with ⟨hev, hstate⟩ | ⟨hev, hstate⟩ | ⟨hev, hstate, _⟩
      · exact ⟨fun _ => ⟨e, List.getLast?_concat _, hev⟩,
          fun hrel => absurd (hstate.symm.trans hrel) (by decide)⟩
      · exact ⟨fun htr => absurd (hstate.symm.trans htr) (by decide),
          fun _ => ⟨e, List.getLast?_concat _, hev⟩⟩
      · exact ⟨fun htr => absurd (hstate.symm.trans htr) (by decide),
          fun hrel => absurd (hstate.symm.trans hrel) (by decide)⟩

theorem chainInv_init : chainInv 0 initialChannelState [] := by
  refine ⟨?_, List.chain'_nil, ?_, List.chain'_nil, ?_, ?_⟩
  · intro e he
    simp at he
  · intro e he
    simp at he
  · intro ht
    exact absurd ht (by decide)
  · intro ht
    exact absurd ht (by decide)

theorem runChannel_inv (ct : String) (tables : NoteTables) (is_pal : Bool) :
    ∀ (snaps : List (List Int)) (frame : Int) (cs : ChannelState)
      (notes : List NoteEvent) (cs2 : ChannelState) (notes2 : List NoteEvent),
    runChannel ct tables is_pal snaps frame cs notes = some (cs2, notes2) →
    chainInv frame cs notes →
    ∃ frame2, chainInv frame2 cs2 notes2 := by
  intro snaps
  induction snaps with
  | nil =>
    intro frame cs notes cs2 notes2 h hinv
    simp only [runChannel, Option.some.injEq, Prod.mk.injEq] at h
    obtain ⟨rfl, rfl⟩ := h
    exact ⟨frame, hinv⟩
  | cons raw rest ih =>
    intro frame cs notes cs2 notes2 h hinv
    rw [runChannel] at h
    cases hu : update_channel ct frame raw cs notes tables is_pal with
    | none =>
      rw [hu] at h
      simp at h
    | some r =>
      obtain ⟨csm, notesm⟩ := r
      rw [hu] at h
      simp only [Option.pure_def, Option.bind_eq_bind, Option.some_bind] at h
      exact ih (frame + 1) csm notesm cs2 notes2 h
        (step_preserves frame cs notes csm notesm
          (update_channel_spec ct frame raw cs notes tables is_pal csm notesm
            hu hinv.2.2.2.2) hinv)

/-- C5: for every channel run of the extractor — any channel type, any
note tables, any region flag, any snapshot stream — the emitted events
have strictly increasing frame stamps (hence they are non-decreasing in
frame and at most one event is emitted per channel per frame), and a stop
event only ever directly follows a trigger or a release (in particular a
stop is never the first event). -/
theorem nsfp_C5 (ch_type : String) (tables : NoteTables) (is_pal : Bool)
    (snaps : List (List Int)) (cs2 : ChannelState) (events : List NoteEvent)
    (h : extract_channel_notes ch_type tables is_pal snaps
      = some (cs2, events)) :
    List.Chain' (fun a b => a.frame < b.frame) events ∧
    (∀ e, events.head? = some e → e.event ≠ "stop") ∧
    List.Chain' (fun a b => b.event = "stop" →
      a.event = "trigger" ∨ a.event = "release") events := by
  obtain ⟨f2, hinv⟩ := runChannel_inv ch_type tables is_pal snaps 0
    initialChannelState [] cs2 events h chainInv_init
  exact ⟨hinv.2.1, hinv.2.2.1, hinv.2.2.2.1⟩

theorem nsfp_C5_witness :
    ∃ cs2 events, extract_channel_notes "noise" C2tables false
        [[0, 5, 0], [0, 0, 0]] = some (cs2, events) ∧
      (List.Chain' (fun a b => a.frame < b.frame) events ∧
        (∀ e, events.head? = some e → e.event ≠ "stop") ∧
        List.Chain' (fun a b => b.event = "stop" →
          a.event = "trigger" ∨ a.event = "release") events) :=
  ⟨_, _, rfl, nsfp_C5 "noise" C2tables false [[0, 5, 0], [0, 0, 0]] _ _ rfl⟩

end Nsfp
